import Mathlib

/-!
Verification development for the label-extraction pipeline of the mypharma
repository (`src/utils/aiExtraction.js`, `src/app/api/scanner/route.ts`,
`src/lib/ocr.ts`).  JavaScript strings are embedded as `List Char`, JS numbers
as `ℚ`, nullable values as `Option`, and fallible external calls as `Except`.
Each definition is a direct translation of the corresponding source function;
the original regular expressions are quoted in comments, and each hand-compiled
matcher follows the leftmost-match-with-backtracking semantics of JavaScript
`String.prototype.match` / `matchAll` / `replace`.
-/

namespace MyPharma

/-- JS strings are embedded as lists of characters. -/
abbrev Str := List Char

/-! ## Character classes (ASCII, as used by the JS regexes) -/

/-- `\d` : ASCII digit. -/
def isDigitChar (c : Char) : Bool := 48 ≤ c.toNat && c.toNat ≤ 57

/-- `[A-Z]`. -/
def isUpperAZ (c : Char) : Bool := 65 ≤ c.toNat && c.toNat ≤ 90

/-- `[a-z]`. -/
def isLowerAZ (c : Char) : Bool := 97 ≤ c.toNat && c.toNat ≤ 122

/-- `[A-Za-z]`. -/
def isLetterAZ (c : Char) : Bool := isUpperAZ c || isLowerAZ c

/-- JS `\w` : `[A-Za-z0-9_]`. -/
def isWordChar (c : Char) : Bool := isLetterAZ c || isDigitChar c || c == '_'

/-- JS `\s`, restricted to the ASCII whitespace characters that occur in OCR
text (space, tab, line feed, carriage return, vertical tab, form feed). -/
def isSpaceJS (c : Char) : Bool :=
  c == ' ' || c == '\t' || c == '\n' || c == '\r' || c.toNat == 11 || c.toNat == 12

/-- ASCII `String.prototype.toUpperCase` on one character. -/
def jsToUpper (c : Char) : Char :=
  if isLowerAZ c then Char.ofNat (c.toNat - 32) else c

/-- ASCII `String.prototype.toLowerCase` on one character. -/
def jsToLower (c : Char) : Char :=
  if isUpperAZ c then Char.ofNat (c.toNat + 32) else c

def upperStr (s : Str) : Str := s.map jsToUpper

def lowerStr (s : Str) : Str := s.map jsToLower

/-- Case-insensitive character comparison (the `i` regex flag). -/
def ciEq (a b : Char) : Bool := jsToLower a == jsToLower b

/-- Word-character test on an optional character (`none` = out of the string). -/
def isWordOpt : Option Char → Bool
  | none => false
  | some c => isWordChar c

/-- A JS word boundary `\b` sits at a position where exactly one side is a
word character; `prev` is the character before the position, `next` after. -/
def jsBoundary (prev next : Option Char) : Bool := isWordOpt prev != isWordOpt next

/-! ## Small string helpers -/

/-- `String.prototype.trim` (strips `\s` at both ends). -/
def trimJS (s : Str) : Str :=
  ((s.dropWhile isSpaceJS).reverse.dropWhile isSpaceJS).reverse

/-- JS string truthiness: `null`/`undefined` and `""` are falsy. -/
def jsTruthyStr : Option Str → Bool
  | none => false
  | some s => !s.isEmpty

/-- `a || b` on nullable strings (empty string is falsy). -/
def orJS (a b : Option Str) : Option Str := if jsTruthyStr a then a else b

/-- `a ?? b` (nullish coalescing). -/
def nullish {α : Type} (a b : Option α) : Option α :=
  match a with
  | some x => some x
  | none => b

/-- `label || ""`. -/
def orEmpty (a : Option Str) : Str := (orJS a (some [])).getD []

/-- Case-insensitive literal prefix test, returning the rest of the string. -/
def dropCI : Str → Str → Option Str
  | [], s => some s
  | _ :: _, [] => none
  | p :: ps, c :: cs => if ciEq p c then dropCI ps cs else none

/-- Case-sensitive literal prefix test, returning the rest of the string. -/
def dropCS : Str → Str → Option Str
  | [], s => some s
  | _ :: _, [] => none
  | p :: ps, c :: cs => if p == c then dropCS ps cs else none

/-- Case-insensitive substring test (`String.prototype.includes` after
`toLowerCase`, with an already-lowercased needle). -/
def containsCI (needle : Str) : Str → Bool
  | [] => (needle.isEmpty : Bool)
  | c :: cs => (dropCI needle (c :: cs)).isSome || containsCI needle cs

/-- Decimal numeral for a `Nat` (used for `String(currentYear)` and
template-literal interpolation of numbers). -/
def natToStr (n : Nat) : Str := (Nat.toDigits 10 n)

/-- `Number(...)` on a list of ASCII digits. -/
def digitsToNat (s : Str) : Nat := s.foldl (fun a c => a * 10 + (c.toNat - 48)) 0

/-- A JS number as an exact rational (all numbers handled by the pipeline are
small decimals, where IEEE semantics and exact semantics agree for the
comparisons performed).  `natRat n` embeds a digit-string value. -/
def natRat (n : Nat) : ℚ := mkRat n 1

/-- `Number("int.frac")` : a decimal literal as an exact rational. -/
def decToRat (intPart frac : Str) : ℚ :=
  mkRat (digitsToNat intPart * 10 ^ frac.length + digitsToNat frac) (10 ^ frac.length)

/-! ## Batch Code Normalizer (`normalizeBatchToken`, aiExtraction.js)

```
function normalizeBatchToken(raw) {
  if (!raw) return null;
  let s = String(raw).toUpperCase().replace(/[^A-Z0-9 ]+/g, ' ').replace(/\s+/g, ' ').trim();
  s = s.replace(/(?<=\bA-Z)0(?=A-Z)/g, 'O');  -- (character classes elided here)
  s = s.replace(..1 -> I..).replace(..5 -> S..);
  s = s.replace(/\bB-run L (?=SL\b)/, dollar1);
  s = s.replace(/\s{2,}/g, ' ');
  const m = s.match(/\b(A-Z{2,5})\s*[- ]?\s*(\d{4,6})\b/);
  if (!m) return null;
  return m[1] + ' ' + m[2];
}
```
-/

/-- Characters kept by `replace(/[^A-Z0-9 ]+/g, ' ')`. -/
def isBatchKeep (c : Char) : Bool := isUpperAZ c || isDigitChar c || c == ' '

/-- Scanner for `replace(/[^A-Z0-9 ]+/g, ' ')` : the first excluded character
of a run emits the replacement space, the rest of the run emits nothing; the
flag records being inside a run of excluded characters. -/
def stripNonBatchGo : Bool → Str → Str
  | _, [] => []
  | inBad, c :: rest =>
    if isBatchKeep c then c :: stripNonBatchGo false rest
    else if inBad then stripNonBatchGo true rest
    else ' ' :: stripNonBatchGo true rest

/-- `replace(/[^A-Z0-9 ]+/g, ' ')` : each run of excluded characters becomes a
single space. -/
def stripNonBatch (s : Str) : Str := stripNonBatchGo false s

/-- Scanner for `replace(/\s+/g, ' ')`. -/
def collapseWsGo : Bool → Str → Str
  | _, [] => []
  | inWs, c :: rest =>
    if isSpaceJS c then
      if inWs then collapseWsGo true rest
      else ' ' :: collapseWsGo true rest
    else c :: collapseWsGo false rest

/-- `replace(/\s+/g, ' ')` : each whitespace run becomes a single space. -/
def collapseWs (s : Str) : Str := collapseWsGo false s

/-- Scanner for `replace(/\s{2,}/g, ' ')` : a whitespace run of length at
least two becomes one space (one-character lookahead decides whether the run
has length at least two); a lone whitespace character stays as it is. -/
def collapseWs2Go : Bool → Str → Str
  | _, [] => []
  | inWs, c :: rest =>
    if isSpaceJS c then
      if inWs then collapseWs2Go true rest
      else
        match rest with
        | d :: _ =>
          if isSpaceJS d then ' ' :: collapseWs2Go true rest
          else c :: collapseWs2Go false rest
        | [] => c :: collapseWs2Go false rest
    else c :: collapseWs2Go false rest

/-- `replace(/\s{2,}/g, ' ')`. -/
def collapseWs2 (s : Str) : Str := collapseWs2Go false s

/-- One global pass `replace(/(?<=\bX)d(?=X)/g, r)` with `X = [A-Z]`:  the
digit `d` is replaced by `r` exactly when the character immediately before it
is an uppercase letter that itself sits just after a word boundary, and the
character immediately after is an uppercase letter.  Matches are zero-width
contexts over the original string, so the lookbehind context passed along the
recursion is the original character. -/
def repairPass (d r : Char) : Option Char → Option Char → Str → Str
  | _, _, [] => []
  | prev2, prev1, c :: rest =>
    let hit := c == d
      && (match prev1 with
          | some p1 => isUpperAZ p1 && !isWordOpt prev2
          | none => false)
      && (match rest with
          | n1 :: _ => isUpperAZ n1
          | [] => false)
    (if hit then r else c) :: repairPass d r prev1 (some c) rest

/-- The three confusion-repair passes of `normalizeBatchToken`:
`0 -> O`, `1 -> I`, `5 -> S` (in source order). -/
def confusionRepairs (s : Str) : Str :=
  repairPass '5' 'S' none none
    (repairPass '1' 'I' none none
      (repairPass '0' 'O' none none s))

/-- Candidate test for `replace(/\b(LETTERS-run B)L(?=SL\b)/, dollar1)` at
offset `j` of `s` (`j` is the position of the `B` closing the captured group):
`s` up to and including `j` is all uppercase, followed by the literal `L`,
`S`, `L`, with a word boundary after (next character absent or non-word). -/
def blCandidate (s : Str) (j : Nat) : Bool :=
  (s.take (j + 1)).all isUpperAZ
    && s.get? j == some 'B'
    && s.get? (j + 1) == some 'L'
    && s.get? (j + 2) == some 'S'
    && s.get? (j + 3) == some 'L'
    && (match s.get? (j + 4) with
        | none => true
        | some c => !isWordChar c)

/-- Greedy choice of the `B` for the ligature fix: the largest candidate `j`
(the group `LETTERS-run B` is greedy, so backtracking tries later `B`s first). -/
def blTryAt (s : Str) : Option Nat :=
  ((List.range s.length).reverse.find? (fun j => blCandidate s j)).map (fun j => j + 1)

/-- `s.replace(/\b(LETTERS-run B)L(?=SL\b)/, dollar1)` : non-global, so only the
leftmost occurrence has its stray `L` removed.  A match can only start where a
word boundary precedes an uppercase letter, so only such positions are tried. -/
def blFixGo : Option Char → Str → Str
  | _, [] => []
  | prev, c :: rest =>
    if !isWordOpt prev && isUpperAZ c then
      match blTryAt (c :: rest) with
      | some n => (c :: rest).eraseIdx n
      | none => c :: blFixGo (some c) rest
    else c :: blFixGo (some c) rest

def blFix (s : Str) : Str := blFixGo none s

/-- Result of the final shape match of `normalizeBatchToken`. -/
structure BatchShape where
  letters : Str
  digits : Str
deriving DecidableEq, Repr

/-- Attempt of `/\b(A-Z{2,5})\s*[- ]?\s*(\d{4,6})\b/` at the start of `s`
(the caller has already checked the leading word boundary and that `s` starts
with an uppercase letter).  The letter group must cover the whole uppercase run
(a shorter greedy choice leaves a letter that neither `\s*`, `[- ]?` nor `\d`
can consume), `\s*` takes the maximal whitespace run so `[- ]?` can only
consume a dash, and the digit group must cover the whole digit run with a word
boundary after it (a shorter choice leaves a digit, which is a word
character).  `shapeMid` is the `[- ]?\s*` middle: after the whitespace run,
`[- ]?` can only consume a dash (the run was maximal), followed by more
whitespace. -/
def shapeMid (r2 : Str) : Str :=
  if r2.head? == some '-' then (r2.drop 1).dropWhile isSpaceJS else r2

def shapeTryAt (s : Str) : Option BatchShape :=
  let letters := s.takeWhile isUpperAZ
  if 2 ≤ letters.length && letters.length ≤ 5 then
    let r3 := shapeMid ((s.dropWhile isUpperAZ).dropWhile isSpaceJS)
    let digits := r3.takeWhile isDigitChar
    if 4 ≤ digits.length && digits.length ≤ 6
        && !isWordOpt (r3.dropWhile isDigitChar).head? then
      some ⟨letters, digits⟩
    else none
  else none

/-- Leftmost match of `/\b(A-Z{2,5})\s*[- ]?\s*(\d{4,6})\b/` : scan positions
left to right; a match can only start at an uppercase letter preceded by a
non-word character (or the start of the string). -/
def shapeSearch : Option Char → Str → Option BatchShape
  | _, [] => none
  | prev, c :: rest =>
    if !isWordOpt prev && isUpperAZ c then
      match shapeTryAt (c :: rest) with
      | some m => some m
      | none => shapeSearch (some c) rest
    else shapeSearch (some c) rest

/-- `normalizeBatchToken` (aiExtraction.js). -/
def normalizeBatchToken (raw : Option Str) : Option Str :=
  match raw with
  | none => none
  | some raw0 =>
    if raw0.isEmpty then none
    else
      let s := trimJS (collapseWs (stripNonBatch (upperStr raw0)))
      let s := confusionRepairs s
      let s := blFix s
      let s := collapseWs2 s
      match shapeSearch none s with
      | none => none
      | some m => some (m.letters ++ ' ' :: m.digits)

/-- Existential test `/\b(A-Z{2,5}) (\d{4,6})\b/.test` used by `finalizeBatch`
(the separator in the source literal is a single space). -/
def testBatchShapeSpace (s : Str) : Bool :=
  (shapeSearchSpace none s)
where
  /-- Same scan as `shapeSearch` but the middle must be exactly one space. -/
  shapeSearchSpace : Option Char → Str → Bool
    | _, [] => false
    | prev, c :: rest =>
      if !isWordOpt prev && isUpperAZ c then
        (match shapeTrySpace (c :: rest) with
          | true => true
          | false => shapeSearchSpace (some c) rest)
      else shapeSearchSpace (some c) rest
  shapeTrySpace : Str → Bool
    | s =>
      let letters := s.takeWhile isUpperAZ
      if 2 ≤ letters.length && letters.length ≤ 5 then
        match s.dropWhile isUpperAZ with
        | ' ' :: r2 =>
          let digits := r2.takeWhile isDigitChar
          let rest := r2.dropWhile isDigitChar
          4 ≤ digits.length && digits.length ≤ 6
            && (match rest with
                | [] => true
                | c :: _ => !isWordChar c)
        | _ => false
      else false

/-- `finalizeBatch` (aiExtraction.js): normalize, then re-check the canonical
shape with `/\bA-Z{2,5} \d{4,6}\b/.test`. -/
def finalizeBatch (s : Option Str) : Option Str :=
  match normalizeBatchToken s with
  | none => none
  | some n => if testBatchShapeSpace n then some n else none

/-- The spec-side shape predicate: the claim's regular expression
`^[A-Z]{2,5} \d{4,6}$`, written directly from the spec's words (anchored, one
space). -/
def specBatchShape (s : Str) : Bool :=
  let letters := s.takeWhile isUpperAZ
  let rest := s.dropWhile isUpperAZ
  let r := rest.drop 1
  let digits := r.takeWhile isDigitChar
  2 ≤ letters.length && letters.length ≤ 5 && rest.head? == some ' '
    && 4 ≤ digits.length && digits.length ≤ 6 && (r.dropWhile isDigitChar).isEmpty

/-! ## Date Normalizer (`toIsoDate`, `completePartialDate`, aiExtraction.js) -/

/-- The month-name alternation `(Jan|Feb|Mar|Apr|May|Jun|Jul|Aug|Sep|Sept|Oct|Nov|Dec)`
with the `i` flag, decided by the first three characters.  The `Sept`
alternative is subsumed: `Sep` is tried first and the trailing `t` is consumed
by the `[a-z]*` that always follows the month group, with identical failure
behaviour, and `monMap` sends both spellings to 9. -/
def month3At (s : Str) : Option Nat :=
  match s with
  | a :: b :: c :: _ =>
    let x := jsToLower a
    let y := jsToLower b
    let z := jsToLower c
    if x == 'j' && y == 'a' && z == 'n' then some 1
    else if x == 'f' && y == 'e' && z == 'b' then some 2
    else if x == 'm' && y == 'a' && z == 'r' then some 3
    else if x == 'a' && y == 'p' && z == 'r' then some 4
    else if x == 'm' && y == 'a' && z == 'y' then some 5
    else if x == 'j' && y == 'u' && z == 'n' then some 6
    else if x == 'j' && y == 'u' && z == 'l' then some 7
    else if x == 'a' && y == 'u' && z == 'g' then some 8
    else if x == 's' && y == 'e' && z == 'p' then some 9
    else if x == 'o' && y == 'c' && z == 't' then some 10
    else if x == 'n' && y == 'o' && z == 'v' then some 11
    else if x == 'd' && y == 'e' && z == 'c' then some 12
    else none
  | _ => none

/-- The separator class `[.\-\/\s]` of the month-year date patterns. -/
def isDateSep (c : Char) : Bool := c == '.' || c == '-' || c == '/' || isSpaceJS c

/-- The separator class `[\/\-\.]` of the numeric date patterns. -/
def isSlashSep (c : Char) : Bool := c == '/' || c == '-' || c == '.'

/-- `String.prototype.padStart(2, '0')`. -/
def padStart2 (s : Str) : Str :=
  if 2 ≤ s.length then s
  else if s.length == 1 then '0' :: s
  else ['0', '0']

/-- Two-digit year expansion with the numeric comparison of `toIsoDate`'s
month-year branch and of `monthYearToIso`: `(Number(y) >= 70 ? '19' : '20') + y`.
The day-first branch compares the two-digit string with `'70'` instead, which
agrees with the numeric comparison on two ASCII digits. -/
def expandYear2 (y : Str) : Str :=
  if y.length == 2 then
    (if 70 ≤ digitsToNat y then '1' :: '9' :: y else '2' :: '0' :: y)
  else y

/-- `toIsoDate` branch 1: `/^(Month)[a-z]*[.\-\/\s]+(\d{2,4})$/i`
(month + year only, completed to day `01`). -/
def isoBranchMonthYear (s : Str) : Option Str :=
  match month3At s with
  | none => none
  | some mo =>
    let r := (s.drop 3).dropWhile isLetterAZ
    let seps := r.takeWhile isDateSep
    let r2 := r.dropWhile isDateSep
    let y := r2.takeWhile isDigitChar
    if !seps.isEmpty && 2 ≤ y.length && y.length ≤ 4
        && (r2.dropWhile isDigitChar).isEmpty then
      some (expandYear2 y ++ '-' :: padStart2 (natToStr mo) ++ "-01".toList)
    else none

/-- `toIsoDate` branch 2: `/^(\d{4})[\/\-\.](\d{1,2})[\/\-\.](\d{1,2})$/`
(year-first numeric date). -/
def isoBranchYmd (s : Str) : Option Str :=
  let y := s.takeWhile isDigitChar
  if y.length == 4 then
    match s.dropWhile isDigitChar with
    | c1 :: r1 =>
      if isSlashSep c1 then
        let mo := r1.takeWhile isDigitChar
        if 1 ≤ mo.length && mo.length ≤ 2 then
          match r1.dropWhile isDigitChar with
          | c2 :: r2 =>
            if isSlashSep c2 then
              let d := r2.takeWhile isDigitChar
              if 1 ≤ d.length && d.length ≤ 2 && (r2.dropWhile isDigitChar).isEmpty then
                some (y ++ '-' :: padStart2 mo ++ '-' :: padStart2 d)
              else none
            else none
          | [] => none
        else none
      else none
    | [] => none
  else none

/-- `toIsoDate` branch 3: `/^(\d{1,2})[\/\-\.](\d{1,2})[\/\-\.](\d{2,4})$/`
(day-first numeric date; a two-digit year is expanded with the
`y >= '70'` rule, and a three-digit year is kept as written). -/
def isoBranchDmy (s : Str) : Option Str :=
  let d := s.takeWhile isDigitChar
  if 1 ≤ d.length && d.length ≤ 2 then
    match s.dropWhile isDigitChar with
    | c1 :: r1 =>
      if isSlashSep c1 then
        let mo := r1.takeWhile isDigitChar
        if 1 ≤ mo.length && mo.length ≤ 2 then
          match r1.dropWhile isDigitChar with
          | c2 :: r2 =>
            if isSlashSep c2 then
              let y := r2.takeWhile isDigitChar
              if 2 ≤ y.length && y.length ≤ 4 && (r2.dropWhile isDigitChar).isEmpty then
                some (expandYear2 y ++ '-' :: padStart2 mo ++ '-' :: padStart2 d)
              else none
            else none
          | [] => none
        else none
      else none
    | [] => none
  else none

/-- `toIsoDate` branch 4: `/^(Month)[a-z]*\s+(\d{1,2}),?\s*(\d{4})$/i`
("Sep 2, 2025" style).  The greedy day group tries two digits first; the
optional comma and the whitespace runs are deterministic because neither class
overlaps with `\d`. -/
def isoBranchMdy (s : Str) : Option Str :=
  match month3At s with
  | none => none
  | some mo =>
    let r := (s.drop 3).dropWhile isLetterAZ
    let sp := r.takeWhile isSpaceJS
    let r2 := r.dropWhile isSpaceJS
    if sp.isEmpty then none
    else
      let tryDay := fun (k : Nat) =>
        let d := r2.take k
        if d.length == k && d.all isDigitChar then
          let r3 := r2.drop k
          let r4 := match r3 with
            | ',' :: t => t
            | _ => r3
          let r5 := r4.dropWhile isSpaceJS
          if r5.length == 4 && r5.all isDigitChar then
            some (r5 ++ '-' :: padStart2 (natToStr mo) ++ '-' :: padStart2 d)
          else none
        else none
      match tryDay 2 with
      | some out => some out
      | none => tryDay 1

/-- `toIsoDate` (aiExtraction.js): `null` for a falsy input, otherwise the
trimmed input is run through the four anchored branches in source order, and
returned unchanged if none matches ("unknown/partial"). -/
def toIsoDate (str : Option Str) : Option Str :=
  match str with
  | none => none
  | some str0 =>
    if str0.isEmpty then none
    else
      let s := trimJS str0
      match isoBranchMonthYear s with
      | some out => some out
      | none =>
        match isoBranchYmd s with
        | some out => some out
        | none =>
          match isoBranchDmy s with
          | some out => some out
          | none =>
            match isoBranchMdy s with
            | some out => some out
            | none => some s

/-- The canonical ISO shape `^\d{4}-\d{2}-\d{2}$` — the output shape of the
numeric-producing branches of `toIsoDate` and the spec's canonical date form. -/
def isCanonicalDate : Str → Bool
  | [y1, y2, y3, y4, s1, m1, m2, s2, d1, d2] =>
    isDigitChar y1 && isDigitChar y2 && isDigitChar y3 && isDigitChar y4
      && s1 == '-' && isDigitChar m1 && isDigitChar m2 && s2 == '-'
      && isDigitChar d1 && isDigitChar d2
  | _ => false

/-- The `monthMap` of `completePartialDate`, keyed by the whole uppercased
month token (3-5 letters); unknown tokens fall back to `'01'`. -/
def monthMapFull (w : Str) : Str :=
  if w == "JAN".toList then "01".toList
  else if w == "FEB".toList then "02".toList
  else if w == "MAR".toList then "03".toList
  else if w == "APR".toList then "04".toList
  else if w == "MAY".toList then "05".toList
  else if w == "JUN".toList then "06".toList
  else if w == "JUL".toList then "07".toList
  else if w == "AUG".toList then "08".toList
  else if w == "SEP".toList then "09".toList
  else if w == "SEPT".toList then "09".toList
  else if w == "OCT".toList then "10".toList
  else if w == "NOV".toList then "11".toList
  else if w == "DEC".toList then "12".toList
  else "01".toList

/-- Attempt of `/([A-Za-z]{3,5})[.\-\/\s]?(\d{1,2})/` at the start of `s`:
greedy letter-group sizes 5, 4, 3 in that order, optional single separator,
then one or two digits. -/
def partialDateTryAt (s : Str) : Option (Str × Str) :=
  let tryK := fun (k : Nat) =>
    let w := s.take k
    if w.length == k && w.all isLetterAZ then
      let r := s.drop k
      let tryFrom := fun (r2 : Str) =>
        let d := r2.takeWhile isDigitChar
        if d.isEmpty then none
        else some (w, d.take 2)
      match r with
      | c :: t =>
        if isDateSep c then
          match tryFrom t with
          | some out => some out
          | none => tryFrom (c :: t)
        else tryFrom (c :: t)
      | [] => none
    else none
  match tryK 5 with
  | some out => some out
  | none =>
    match tryK 4 with
    | some out => some out
    | none => tryK 3

/-- Leftmost match of `/([A-Za-z]{3,5})[.\-\/\s]?(\d{1,2})/`. -/
def partialDateSearch : Str → Option (Str × Str)
  | [] => none
  | c :: rest =>
    match partialDateTryAt (c :: rest) with
    | some out => some out
    | none => partialDateSearch rest

/-- `completePartialDate` (aiExtraction.js). -/
def completePartialDate (partialDate : Str) (year : Str) : Str :=
  match partialDateSearch partialDate with
  | some (monthAbbr, day) =>
    year ++ '-' :: monthMapFull (upperStr monthAbbr) ++ '-' :: padStart2 day
  | none => partialDate

/-- First match of `/(20\d{2})/` (the year sniffed from surrounding OCR
text in `processExtractedData`). -/
def find20xx : Str → Option Str
  | [] => none
  | c :: rest =>
    match c, rest with
    | '2', '0' :: a :: b :: _ =>
      if isDigitChar a && isDigitChar b then some ['2', '0', a, b]
      else find20xx rest
    | _, _ => find20xx rest

/-! ## Lines and leftmost scanning -/

/-- `split(/\r?\n/)` (a lone carriage return is not a separator). -/
def splitLinesGo (cur : Str) : Str → List Str
  | [] => [cur.reverse]
  | '\r' :: '\n' :: rest => cur.reverse :: splitLinesGo [] rest
  | '\n' :: rest => cur.reverse :: splitLinesGo [] rest
  | c :: rest => splitLinesGo (c :: cur) rest

def splitLinesRaw (s : Str) : List Str := splitLinesGo [] s

/-- `String(txt).split(/\r?\n/).map(l => l.trim()).filter(Boolean)` — the
`_lines` field of `buildHints` (and the line lists of `extractUsesFromText`
and `extractMRP`). -/
def linesTrimmed (s : Str) : List Str :=
  (splitLinesRaw s).map trimJS |>.filter (fun l => !l.isEmpty)

/-- Leftmost unanchored regex search: try an anchored attempt at every
position, left to right (for patterns without `\b` context). -/
def scanLeft {α : Type} (tryAt : Str → Option α) : Str → Option α
  | [] => none
  | c :: rest =>
    match tryAt (c :: rest) with
    | some out => some out
    | none => scanLeft tryAt rest

/-! ## Batch/lot and Mfg label regexes (aiExtraction.js)

`/\b(?:Batch(?:\s*No\.?)?|Lot|LOT|BNo|BN|BATCH)\b/i` (test form) and
`batchLabel = /\b(?:Batch(?:\s*No\.?)?|Lot|LOT|BNo|BN|BATCH)\b[:\-\s]*/i`
(replace form).  With the `i` flag the `LOT` and `BATCH` alternatives are
subsumed by `Lot` and `Batch` and are omitted from the translation. -/

/-- Word boundary after a match that ends in a word character: the next
character must be absent or non-word. -/
def bAfter : Str → Bool
  | [] => true
  | c :: _ => !isWordChar c

/-- Length consumed by the batch/lot keyword alternation (with its trailing
`\b`) at the start of `s`; the caller checks the leading `\b`.  The optional
`(?:\s*No\.?)?` group is greedy (tried with the dot first, then without, then
without the group); after a consumed dot, the boundary holds only when the
next character is a word character. -/
def batchKwLen (s : Str) : Option Nat :=
  match dropCI "batch".toList s with
  | some r =>
    let sp := r.takeWhile isSpaceJS
    let r2 := r.dropWhile isSpaceJS
    let withNo :=
      match dropCI "no".toList r2 with
      | some r3 =>
        match r3 with
        | '.' :: r4 =>
          if isWordOpt r4.head? then some (5 + sp.length + 3)
          else if bAfter r3 then some (5 + sp.length + 2)
          else none
        | _ => if bAfter r3 then some (5 + sp.length + 2) else none
      | none => none
    (match withNo with
      | some n => some n
      | none => if bAfter r then some 5 else none)
  | none =>
    match dropCI "lot".toList s with
    | some r => if bAfter r then some 3 else none
    | none =>
      match dropCI "bno".toList s with
      | some r => if bAfter r then some 3 else none
      | none =>
        match dropCI "bn".toList s with
        | some r => if bAfter r then some 2 else none
        | none => none

/-- `.test` of the batch/lot keyword regex: all alternatives start with a
letter, so a match can only start after a non-word character. -/
def testBatchKw (s : Str) : Bool := go none s
where
  go : Option Char → Str → Bool
    | _, [] => false
    | prev, c :: rest =>
      (!isWordOpt prev && (batchKwLen (c :: rest)).isSome) || go (some c) rest

/-- The trailing class `[:\-\s]` of `batchLabel`. -/
def isColonDashWs (c : Char) : Bool := c == ':' || c == '-' || isSpaceJS c

/-- `line.replace(batchLabel, ' ')` : non-global, leftmost occurrence only. -/
def replaceBatchLabel (s : Str) : Str := go none s
where
  go : Option Char → Str → Str
    | _, [] => []
    | prev, c :: rest =>
      if !isWordOpt prev then
        match batchKwLen (c :: rest) with
        | some n =>
          let after := (c :: rest).drop n
          ' ' :: after.dropWhile isColonDashWs
        | none => c :: go (some c) rest
      else c :: go (some c) rest

/-- `batchValue = /([A-Za-z0-9\-]{1,20})/` character class. -/
def isBatchValChar (c : Char) : Bool := isLetterAZ c || isDigitChar c || c == '-'

/-- First match of `batchValue` (greedy, at most twenty characters). -/
def firstBatchValue : Str → Option Str
  | [] => none
  | c :: rest =>
    if isBatchValChar c then some (((c :: rest).takeWhile isBatchValChar).take 20)
    else firstBatchValue rest

/-- Length consumed by the core alternation of
`mfgLabel = /(?:Mfg\.?\s*Date|MFG\s*Date|MFG|DOM|उत्पादन\s*मिति)\s*[:\-]*/i`
at the start of `s` (no word boundaries; the `MFG\s*Date` alternative is the
dot-free case of the first and is subsumed under the `i` flag). -/
def mfgLabelCoreLen (s : Str) : Option Nat :=
  match dropCI "mfg".toList s with
  | some r =>
    let withDot :=
      match r with
      | '.' :: r2 =>
        let sp := r2.takeWhile isSpaceJS
        (dropCI "date".toList (r2.dropWhile isSpaceJS)).map (fun _ => 3 + 1 + sp.length + 4)
      | _ => none
    (match withDot with
      | some n => some n
      | none =>
        let sp := r.takeWhile isSpaceJS
        match dropCI "date".toList (r.dropWhile isSpaceJS) with
        | some _ => some (3 + sp.length + 4)
        | none => some 3)
  | none =>
    match dropCI "dom".toList s with
    | some _ => some 3
    | none =>
      match dropCI "उत्पादन".toList s with
      | some r =>
        let sp := r.takeWhile isSpaceJS
        (dropCI "मिति".toList (r.dropWhile isSpaceJS)).map
          (fun _ => "उत्पादन".toList.length + sp.length + "मिति".toList.length)
      | none => none

/-- Full consumed length of `mfgLabel` at the start of `s` (core alternation
plus `\s*[:\-]*`). -/
def mfgLabelLen (s : Str) : Option Nat :=
  match mfgLabelCoreLen s with
  | none => none
  | some n =>
    let r := s.drop n
    let sp := r.takeWhile isSpaceJS
    let r2 := r.dropWhile isSpaceJS
    some (n + sp.length + (r2.takeWhile (fun c => c == ':' || c == '-')).length)

/-- `.test` of `mfgLabel` (no boundary: every position is a candidate). -/
def testMfgLabel : Str → Bool
  | [] => false
  | c :: rest => (mfgLabelCoreLen (c :: rest)).isSome || testMfgLabel rest

/-- `line.replace(mfgLabel, ' ')` : non-global, leftmost occurrence only. -/
def replaceMfgLabel : Str → Str
  | [] => []
  | c :: rest =>
    match mfgLabelLen (c :: rest) with
    | some n => ' ' :: (c :: rest).drop n
    | none => c :: replaceMfgLabel rest

/-! ## `findFirstDateToken` (aiExtraction.js): five unanchored patterns tried
in order over the whole string, returning the matched substring. -/

/-- Pattern 1 attempt: `/(\d{4}[\/\-\.]\d{1,2}[\/\-\.]\d{1,2})/`. -/
def dateTok1At (s : Str) : Option Str :=
  let y := s.take 4
  if y.length == 4 && y.all isDigitChar then
    match s.drop 4 with
    | c1 :: r1 =>
      if isSlashSep c1 then
        let m1 := r1.takeWhile isDigitChar
        if 1 ≤ m1.length && m1.length ≤ 2 then
          match r1.dropWhile isDigitChar with
          | c2 :: r2 =>
            if isSlashSep c2 then
              let d := (r2.takeWhile isDigitChar).take 2
              if 1 ≤ d.length then some (y ++ c1 :: (m1 ++ c2 :: d)) else none
            else none
          | [] => none
        else none
      else none
    | [] => none
  else none

/-- Pattern 2 attempt: `/(\d{1,2}[\/\-\.]\d{1,2}[\/\-\.]\d{2,4})/`. -/
def dateTok2At (s : Str) : Option Str :=
  let d := s.takeWhile isDigitChar
  if 1 ≤ d.length && d.length ≤ 2 then
    match s.dropWhile isDigitChar with
    | c1 :: r1 =>
      if isSlashSep c1 then
        let m1 := r1.takeWhile isDigitChar
        if 1 ≤ m1.length && m1.length ≤ 2 then
          match r1.dropWhile isDigitChar with
          | c2 :: r2 =>
            if isSlashSep c2 then
              let y := (r2.takeWhile isDigitChar).take 4
              if 2 ≤ y.length then some (d ++ c1 :: (m1 ++ c2 :: y)) else none
            else none
          | [] => none
        else none
      else none
    | [] => none
  else none

/-- Pattern 3 attempt (consumed length):
`/((?:Month)[a-z]*\s+\d{1,2},?\s*\d{2,4})/i`. -/
def dateTok3Len (s : Str) : Option Nat :=
  match month3At s with
  | none => none
  | some _ =>
    let letters := ((s.drop 3).takeWhile isLetterAZ).length
    let i1 := 3 + letters
    let r := s.drop i1
    let sp := (r.takeWhile isSpaceJS).length
    if sp == 0 then none
    else
      let r2 := r.drop sp
      let dayRun := (r2.takeWhile isDigitChar).length
      let tryDay := fun (k : Nat) =>
        if 1 ≤ k && k ≤ dayRun then
          let r3 := r2.drop k
          let comma := match r3 with
            | ',' :: _ => 1
            | _ => 0
          let r4 := r3.drop comma
          let sp2 := (r4.takeWhile isSpaceJS).length
          let yr := ((r4.drop sp2).takeWhile isDigitChar).take 4
          if 2 ≤ yr.length then some (i1 + sp + k + comma + sp2 + yr.length)
          else none
        else none
      match tryDay 2 with
      | some n => some n
      | none => tryDay 1

/-- Pattern 4 attempt (consumed length):
`/((?:Month)[a-z]*[.\-\/\s]+\d{2,4})/i`. -/
def dateTok4Len (s : Str) : Option Nat :=
  match month3At s with
  | none => none
  | some _ =>
    let letters := ((s.drop 3).takeWhile isLetterAZ).length
    let i1 := 3 + letters
    let r := s.drop i1
    let sp := (r.takeWhile isDateSep).length
    if sp == 0 then none
    else
      let yr := ((r.drop sp).takeWhile isDigitChar).take 4
      if 2 ≤ yr.length then some (i1 + sp + yr.length) else none

/-- Pattern 5 attempt (consumed length): `/([A-Za-z]{3,5}[.\-\/\s]?\d{1,2})/`
(greedy letter group, optional single separator, one or two digits). -/
def dateTok5Len (s : Str) : Option Nat :=
  let tryK := fun (k : Nat) =>
    let w := s.take k
    if w.length == k && w.all isLetterAZ then
      let r := s.drop k
      let withSep :=
        match r with
        | c :: t =>
          if isDateSep c then
            let d := (t.takeWhile isDigitChar).take 2
            if 1 ≤ d.length then some (k + 1 + d.length) else none
          else none
        | [] => none
      match withSep with
      | some n => some n
      | none =>
        let d := (r.takeWhile isDigitChar).take 2
        if 1 ≤ d.length then some (k + d.length) else none
    else none
  match tryK 5 with
  | some n => some n
  | none =>
    match tryK 4 with
    | some n => some n
    | none => tryK 3

/-- `findFirstDateToken` (aiExtraction.js): the patterns are tried in order,
each searched over the whole string. -/
def findFirstDateToken (s : Str) : Option Str :=
  if s.isEmpty then none
  else
    match scanLeft dateTok1At s with
    | some v => some v
    | none =>
      match scanLeft dateTok2At s with
      | some v => some v
      | none =>
        match scanLeft (fun t => (dateTok3Len t).map t.take) s with
        | some v => some v
        | none =>
          match scanLeft (fun t => (dateTok4Len t).map t.take) s with
          | some v => some v
          | none => scanLeft (fun t => (dateTok5Len t).map t.take) s

/-! ## `pullLabeledValue` and `extractBatchAndMfgFromLines` (aiExtraction.js) -/

/-- `pullLabeledValue(lines, labelRegex, valueRegexOrFn)` : on a line matching
the label, extract a value from the line with the label removed, else from the
next line; otherwise keep scanning. -/
def pullLabeledValue (labelTest : Str → Bool) (labelReplace : Str → Str)
    (extract : Str → Option Str) : List Str → Option Str
  | [] => none
  | l :: rest =>
    if labelTest l then
      let v1 := extract (trimJS (labelReplace l))
      if jsTruthyStr v1 then v1
      else
        let v2 := match rest with
          | nxt :: _ => extract nxt
          | [] => none
        if jsTruthyStr v2 then v2
        else pullLabeledValue labelTest labelReplace extract rest
    else pullLabeledValue labelTest labelReplace extract rest

/-- Container for the label-based pulls (`labelHits` in the pipeline). -/
structure LabelHits where
  batch_number : Option Str
  manufacturing_date : Option Str
deriving DecidableEq, Repr

/-- `extractBatchAndMfgFromLines` (aiExtraction.js). -/
def extractBatchAndMfgFromLines (lines : List Str) : LabelHits :=
  let batch := pullLabeledValue testBatchKw replaceBatchLabel firstBatchValue lines
  let mfgRaw := pullLabeledValue testMfgLabel replaceMfgLabel findFirstDateToken lines
  { batch_number := orJS batch none
    manufacturing_date := orJS mfgRaw none }

/-! ## CandidateRecord (the schema-shaped extractor output) -/

/-- The JSON schema shared by the vision extractor, the text-model extractor
and the regex fallback; absent/`null`/`undefined` collapse to `none`, JS
numbers are rationals. -/
structure CandidateRecord where
  name : Option Str := none
  manufacturing_date : Option Str := none
  batch_number : Option Str := none
  expiry_date : Option Str := none
  slips_count : Option ℚ := none
  tablets_per_slip : Option ℚ := none
  mrp_amount : Option ℚ := none
  mrp_currency : Option Str := none
  mrp_text : Option Str := none
  uses_on_label : Option (List Str) := none
  active_ingredient_on_label : Option Str := none
  strength_on_label : Option Str := none
  dosage_form_on_label : Option Str := none
deriving DecidableEq, Repr

/-- Date post-processing of one field in `processExtractedData`
(aiExtraction.js): a truthy date is normalized with `toIsoDate`; if the result
is still truthy and at most six characters ("partial", e.g. `OCT 24` is seven
so stays), it is completed with a year sniffed from the OCR text via
`/(20\d{2})/` or with the current year. -/
def processDateField (d0 : Option Str) (ocrText : Str) (currentYear : Nat) : Option Str :=
  let d1 := if jsTruthyStr d0 then toIsoDate d0 else d0
  if jsTruthyStr d1 && (d1.getD []).length ≤ 6 then
    let yr := match find20xx ocrText with
      | some y => y
      | none => natToStr currentYear
    some (completePartialDate (d1.getD []) yr)
  else d1

/-- `processExtractedData` (aiExtraction.js); `currentYear` stands for
`new Date().getFullYear()`, passed explicitly to keep the function pure. -/
def processExtractedData (data : CandidateRecord) (ocrText : Str) (currentYear : Nat) :
    CandidateRecord :=
  { data with
    manufacturing_date := processDateField data.manufacturing_date ocrText currentYear
    expiry_date := processDateField data.expiry_date ocrText currentYear }

/-! ## Batch candidates and voting (aiExtraction.js) -/

/-- Attempt of `CAND_RX = /([A-Z]{2,6}\s*[- ]?\s*\d{4,7})/g` at the start of
`s`, returning the consumed length.  The greedy letter group must cover the
whole uppercase run (2-6 letters; a shorter choice leaves a letter that
nothing later can consume), `\s*` is maximal so `[- ]?` can only take a dash,
and the final digit group greedily takes at most seven of a run of at least
four digits. -/
def candTryAt (s : Str) : Option Nat :=
  let letters := s.takeWhile isUpperAZ
  let k := letters.length
  if 2 ≤ k && k ≤ 6 then
    let r1 := s.drop k
    let sp1 := (r1.takeWhile isSpaceJS).length
    let r2 := r1.drop sp1
    let dash := match r2 with
      | '-' :: _ => 1
      | _ => 0
    let r3 := r2.drop dash
    let sp2 := (r3.takeWhile isSpaceJS).length
    let digits := ((r3.drop sp2).takeWhile isDigitChar)
    if 4 ≤ digits.length then
      some (k + sp1 + dash + sp2 + min digits.length 7)
    else none
  else none

/-- `matchAll` of `CAND_RX` : repeated leftmost search, each next search
starting right after the previous match (fuelled by the string length; every
step consumes at least one character). -/
def candScanGo : Nat → Str → List Str
  | 0, _ => []
  | _, [] => []
  | fuel + 1, c :: rest =>
    match candTryAt (c :: rest) with
    | some n => (c :: rest).take n :: candScanGo fuel ((c :: rest).drop (max n 1))
    | none => candScanGo fuel rest

def candMatchAll (s : Str) : List Str := candScanGo s.length s

/-- The lines gathered by `extractBatchCandidates` : every line containing a
batch/lot keyword plus its immediate successor. -/
def batchAround : List Str → List Str
  | [] => []
  | l :: rest =>
    if testBatchKw l then
      l :: (match rest with
        | nxt :: _ => [nxt]
        | [] => []) ++ batchAround rest
    else batchAround rest

/-- Insertion-ordered deduplication (the `Set` of `extractBatchCandidates`). -/
def dedupKeepFirst : List Str → List Str := go []
where
  go (seen : List Str) : List Str → List Str
    | [] => []
    | x :: rest => if seen.contains x then go seen rest else x :: go (x :: seen) rest

/-- `extractBatchCandidates` (aiExtraction.js): uppercase each gathered line,
collect all `CAND_RX` matches, trim, deduplicate keeping first occurrence. -/
def extractBatchCandidates (lines : List Str) : List Str :=
  dedupKeepFirst ((batchAround lines).flatMap (fun s => (candMatchAll (upperStr s)).map trimJS))

/-- One `votes.set(n, (votes.get(n) || 0) + w)` on the insertion-ordered
tally (a JS `Map` keeps first-insertion order on update). -/
def addVote (acc : List (Str × Nat)) (t : Str) (w : Nat) : List (Str × Nat) :=
  if acc.any (fun p => p.1 == t) then
    acc.map (fun p => if p.1 == t then (p.1, p.2 + w) else p)
  else acc ++ [(t, w)]

/-- The vote `Map` built from an ordered list of (token, weight) events. -/
def tallyVotes (vs : List (Str × Nat)) : List (Str × Nat) :=
  vs.foldl (fun acc p => addVote acc p.1 p.2) []

/-- The selection loop of `pickBestBatch`:
`if (v > bestScore || (v === bestScore && k.length < (best?.length || 999)))`.
`bestScore` starts at `-1`, and `best?.length || 999` is `999` while `best`
is still `null` (and for an empty string, which is falsy). -/
def blOf : Option Str → ℤ
  | some b => if b.length == 0 then 999 else (b.length : ℤ)
  | none => 999

def selectBestGo : List (Str × Nat) → Option Str → ℤ → Option Str
  | [], best, _ => best
  | (k, v) :: rest, best, bestScore =>
    if bestScore < (v : ℤ) || (bestScore == (v : ℤ) && (k.length : ℤ) < blOf best) then
      selectBestGo rest (some k) (v : ℤ)
    else selectBestGo rest best bestScore

/-- Winner of the tallied votes; `return best || null`. -/
def selectBest (votes : List (Str × Nat)) : Option Str :=
  orJS (selectBestGo votes none (-1)) none

/-- Strict dominance in the spec's announced vote order: `x` beats `y` when
`y` has strictly less cumulative weight, or equal weight and a strictly
longer token. -/
def beats (x y : Str × Nat) : Bool :=
  y.2 < x.2 || (y.2 == x.2 && x.1.length < y.1.length)

/-- Cumulative weight of one token over a list of vote events. -/
def keyWeight (k : Str) (vs : List (Str × Nat)) : Nat :=
  ((vs.filter (fun p => p.1 == k)).map Prod.snd).sum

/-- The ordered (token, weight) vote events of `pickBestBatch`: (a) normalized
candidates from lines around a batch keyword, weight 2; (b) every `CAND_RX`
match in every raw per-image OCR text, weight 1 (a falsy blob contributes no
matches); (c) the model and regex batch guesses, weight 1 each.  Candidates
failing normalization do not vote. -/
def batchVoteEvents (ocrTexts : List Str) (hintedLines : List Str)
    (aiBatch rxBatch : Option Str) : List (Str × Nat) :=
  ((extractBatchCandidates hintedLines).filterMap
      (fun c => (normalizeBatchToken (some c)).map (fun n => (n, 2))))
    ++ (ocrTexts.flatMap (fun blob =>
        (candMatchAll (upperStr blob)).filterMap
          (fun m => (normalizeBatchToken (some m)).map (fun n => (n, 1)))))
    ++ ([aiBatch, rxBatch].filterMap
        (fun c => (normalizeBatchToken c).map (fun n => (n, 1))))

/-- `pickBestBatch` (aiExtraction.js). -/
def pickBestBatch (ocrTexts : List Str) (hintedLines : List Str)
    (aiBatch rxBatch : Option Str) : Option Str :=
  selectBest (tallyVotes (batchVoteEvents ocrTexts hintedLines aiBatch rxBatch))

/-! ## Merge logic (aiExtraction.js) -/

/-- Case-sensitive substring test (`String.prototype.includes`). -/
def containsSub (needle : Str) : Str → Bool
  | [] => needle.isEmpty
  | c :: cs => (dropCS needle (c :: cs)).isSome || containsSub needle cs

/-- `preferName` (aiExtraction.js). -/
def preferName (aiName rxName : Option Str) : Option Str :=
  if jsTruthyStr aiName && 6 ≤ (aiName.getD []).length then some (trimJS (aiName.getD []))
  else if jsTruthyStr rxName && 6 ≤ (rxName.getD []).length then some (trimJS (rxName.getD []))
  else orJS aiName (orJS rxName none)

/-- `getBatchContext` (aiExtraction.js): the first line with a batch/lot
keyword, together with its neighbours, joined by spaces. -/
def getBatchContext (lines : List Str) : Str :=
  match lines.findIdx? testBatchKw with
  | none => []
  | some idx =>
    let lo := idx - 1
    List.intercalate [' '] ((lines.drop lo).take (idx + 2 - lo))

/-- `mergeResults` (aiExtraction.js).  The caller passes `ai || {}`, so a
null model output arrives as the all-`none` record. -/
def mergeResults (ai rx : CandidateRecord) (ocrLines : List Str)
    (labelHits : LabelHits) : CandidateRecord :=
  let name := preferName ai.name rx.name
  let batchCtx := getBatchContext ocrLines
  let batch : Option Str :=
    if jsTruthyStr labelHits.batch_number then labelHits.batch_number
    else if jsTruthyStr rx.batch_number
        && containsSub (lowerStr (rx.batch_number.getD [])) (lowerStr batchCtx) then
      rx.batch_number
    else if jsTruthyStr ai.batch_number
        && containsSub (lowerStr (ai.batch_number.getD [])) (lowerStr batchCtx) then
      ai.batch_number
    else none
  { name := name
    manufacturing_date :=
      orJS labelHits.manufacturing_date (orJS ai.manufacturing_date
        (orJS rx.manufacturing_date none))
    batch_number := batch
    expiry_date := orJS ai.expiry_date (orJS rx.expiry_date none)
    slips_count := nullish ai.slips_count (nullish rx.slips_count none)
    tablets_per_slip := nullish ai.tablets_per_slip (nullish rx.tablets_per_slip none)
    mrp_amount := nullish ai.mrp_amount (nullish rx.mrp_amount none)
    mrp_currency := nullish ai.mrp_currency (nullish rx.mrp_currency none)
    mrp_text := nullish ai.mrp_text (nullish rx.mrp_text none)
    uses_on_label := match ai.uses_on_label with
      | some l => some (l.filter (fun u => !u.isEmpty))
      | none => none
    active_ingredient_on_label := orJS ai.active_ingredient_on_label none
    strength_on_label := orJS ai.strength_on_label none
    dosage_form_on_label := orJS ai.dosage_form_on_label none }

/-! ## Packaging (`extractPackInfo`, aiExtraction.js) -/

/-- `[xX×]`. -/
def isXChar (c : Char) : Bool := c == 'x' || c == 'X' || c == '×'

/-- Case-insensitive word with trailing `\b` at the start of `s`. -/
def wordB (w : Str) (s : Str) : Bool :=
  match dropCI w s with
  | some r => bAfter r
  | none => false

/-- The unit alternation `(?:TAB|TABS|TABLET|TABLETS|CAP|CAPS|CAPSULES)` with
a trailing `\b` (used where the unit ends the pattern; order only matters for
the extent, which is unused there). -/
def unitBAt (s : Str) : Bool :=
  wordB "tab".toList s || wordB "tabs".toList s || wordB "tablet".toList s
    || wordB "tablets".toList s || wordB "cap".toList s || wordB "caps".toList s
    || wordB "capsules".toList s

/-- The unit alternation followed by a continuation (pattern B has material
after the unit, so each alternative is tried in source order against the
continuation). -/
def unitThenAt (cont : Str → Option (Nat × Nat)) (s : Str) : Option (Nat × Nat) :=
  let tryW := fun (w : Str) =>
    match dropCI w s with
    | some r => cont r
    | none => none
  match tryW "tab".toList with
  | some out => some out
  | none =>
    match tryW "tabs".toList with
    | some out => some out
    | none =>
      match tryW "tablet".toList with
      | some out => some out
      | none =>
        match tryW "tablets".toList with
        | some out => some out
        | none =>
          match tryW "cap".toList with
          | some out => some out
          | none =>
            match tryW "caps".toList with
            | some out => some out
            | none => tryW "capsules".toList

/-- Pattern A attempt: `/\b(\d{1,3})\s*[xX×]\s*(\d{1,3})\s*UNIT\b/i`
(leading boundary checked by the scanner).  Each digit group must cover its
whole run (a shorter greedy choice leaves a digit that the next part cannot
consume). -/
def packATry (s : Str) : Option (Nat × Nat) :=
  let d1 := s.takeWhile isDigitChar
  if 1 ≤ d1.length && d1.length ≤ 3 then
    match (s.drop d1.length).dropWhile isSpaceJS with
    | c :: r2 =>
      if isXChar c then
        let r3 := r2.dropWhile isSpaceJS
        let d2 := r3.takeWhile isDigitChar
        if 1 ≤ d2.length && d2.length ≤ 3 then
          if unitBAt ((r3.drop d2.length).dropWhile isSpaceJS) then
            some (digitsToNat d1, digitsToNat d2)
          else none
        else none
      else none
    | [] => none
  else none

/-- Pattern B attempt: `/\b(\d{1,3})\s*UNIT\s*[xX×]\s*(\d{1,3})\b/i`. -/
def packBTry (s : Str) : Option (Nat × Nat) :=
  let d1 := s.takeWhile isDigitChar
  if 1 ≤ d1.length && d1.length ≤ 3 then
    let r1 := (s.drop d1.length).dropWhile isSpaceJS
    unitThenAt (fun r2 =>
      match r2.dropWhile isSpaceJS with
      | c :: r4 =>
        if isXChar c then
          let r5 := r4.dropWhile isSpaceJS
          let d2 := r5.takeWhile isDigitChar
          if 1 ≤ d2.length && d2.length ≤ 3 && bAfter (r5.drop d2.length) then
            some (digitsToNat d1, digitsToNat d2)
          else none
        else none
      | [] => none) r1
  else none

/-- Pattern C attempt: `/\b(\d{1,3})\s*UNIT\b/i` (per-slip count only). -/
def packCTry (s : Str) : Option Nat :=
  let d1 := s.takeWhile isDigitChar
  if 1 ≤ d1.length && d1.length ≤ 3 then
    if unitBAt ((s.drop d1.length).dropWhile isSpaceJS) then some (digitsToNat d1)
    else none
  else none

/-- Leftmost scan for a pattern with a leading `\b` (all three pack patterns
and the date/batch patterns start with a word character, so a match can only
begin where the previous character is non-word). -/
def scanLeftB {α : Type} (tryAt : Str → Option α) : Option Char → Str → Option α
  | _, [] => none
  | prev, c :: rest =>
    if !isWordOpt prev then
      match tryAt (c :: rest) with
      | some out => some out
      | none => scanLeftB tryAt (some c) rest
    else scanLeftB tryAt (some c) rest

/-- `extractPackInfo` (aiExtraction.js): the three patterns in priority
order. -/
def extractPackInfo (text : Str) : Option ℚ × Option ℚ :=
  match scanLeftB packATry none text with
  | some (slips, tabs) => (some (natRat slips), some (natRat tabs))
  | none =>
    match scanLeftB packBTry none text with
    | some (tabs, slips) => (some (natRat slips), some (natRat tabs))
    | none =>
      match scanLeftB packCTry none text with
      | some tabs => (none, some (natRat tabs))
      | none => (none, none)

/-! ## MRP (`extractMRP`, aiExtraction.js) -/

/-- Length consumed by `M\.?\s*R\.?\s*P\.?` at the start of `s` (the greedy
dots and whitespace runs are deterministic: the classes are disjoint). -/
def mrpFlexLen (s : Str) : Option Nat :=
  match s with
  | [] => none
  | c :: r =>
    if ciEq c 'm' then
      let dot1 := match r with
        | '.' :: _ => 1
        | _ => 0
      let r1 := r.drop dot1
      let sp1 := (r1.takeWhile isSpaceJS).length
      (match r1.drop sp1 with
        | [] => none
        | c2 :: r2 =>
          if ciEq c2 'r' then
            let dot2 := match r2 with
              | '.' :: _ => 1
              | _ => 0
            let r3 := r2.drop dot2
            let sp2 := (r3.takeWhile isSpaceJS).length
            (match r3.drop sp2 with
              | [] => none
              | c3 :: r4 =>
                if ciEq c3 'p' then
                  let dot3 := match r4 with
                    | '.' :: _ => 1
                    | _ => 0
                  some (1 + dot1 + sp1 + 1 + dot2 + sp2 + 1 + dot3)
                else none)
          else none)
    else none

/-- Length consumed by the MRP keyword alternation
`(?:MRP|M\.?\s*R\.?\s*P\.?|मूल्य)` at the start of `s` (first alternative
wins). -/
def mrpKwLen (s : Str) : Option Nat :=
  match dropCI "mrp".toList s with
  | some _ => some 3
  | none =>
    match mrpFlexLen s with
    | some n => some n
    | none => (dropCI "मूल्य".toList s).map (fun _ => "मूल्य".toList.length)

/-- Test of the line filter `/(M\.?\s*R\.?\s*P\.?|मूल्य)/i` (no `MRP`
alternative, but `MRP` is matched by the flexible form with no dots). -/
def testMrpKw : Str → Bool
  | [] => false
  | c :: rest =>
    (mrpFlexLen (c :: rest)).isSome
      || (dropCI "मूल्य".toList (c :: rest)).isSome
      || testMrpKw rest

/-- Amount extraction at a keyword position: after the keyword,
`[^0-9]*` greedily skips to the first digit (the optional currency group can
then only match empty), and `([0-9]+(?:\.[0-9]{1,2})?)` captures the integer
part and up to two decimals. -/
def mrpAmountAt (s : Str) : Option ℚ :=
  match mrpKwLen s with
  | none => none
  | some n =>
    let afterNon := (s.drop n).dropWhile (fun c => !isDigitChar c)
    let intPart := afterNon.takeWhile isDigitChar
    if intPart.isEmpty then none
    else
      let r := afterNon.drop intPart.length
      let frac := match r with
        | '.' :: t =>
          let d := (t.takeWhile isDigitChar).take 2
          if d.isEmpty then [] else d
        | _ => []
      some (decToRat intPart frac)

/-- The result triple of `extractMRP`. -/
structure MrpInfo where
  mrpAmount : Option ℚ
  mrpCurrency : Option Str
  mrpText : Option Str
deriving DecidableEq, Repr

/-- Currency inference from the matched line:
`/NPR|NRs|रु/` (case-sensitive), then `/INR/`, then `/Rs/i`. -/
def mrpCurrencyOf (l : Str) : Option Str :=
  if containsSub "NPR".toList l || containsSub "NRs".toList l || containsSub "रु".toList l then
    some "NPR".toList
  else if containsSub "INR".toList l then some "INR".toList
  else if containsCI "rs".toList l then some "Rs".toList
  else none

/-- `extractMRP` (aiExtraction.js): first keyword line with an amount wins. -/
def extractMRP (text : Str) : MrpInfo := go (linesTrimmed text)
where
  go : List Str → MrpInfo
    | [] => ⟨none, none, none⟩
    | l :: rest =>
      if testMrpKw l then
        match scanLeft mrpAmountAt l with
        | some amt => ⟨some amt, mrpCurrencyOf l, some l⟩
        | none => go rest
      else go rest

/-! ## Regex Fallback Extractor (`extractWithRegex`, aiExtraction.js) -/

/-- Attempt of the name pattern
`/(Flucloxacillin(?:\s+Capsules?\s*BP)?|FLUCLASS\s*500|BUSTOP|VITAMIN\s*B-?COMPLEX\s*SYRUP)/i`
at the start of `s`, returning the consumed length (alternatives in source
order; the optional groups are greedy). -/
def namePatTry (s : Str) : Option Nat :=
  let alt1 :=
    match dropCI "flucloxacillin".toList s with
    | some r =>
      let base := 14
      let sp := (r.takeWhile isSpaceJS).length
      let full :=
        if sp == 0 then none
        else
          match dropCI "capsule".toList (r.drop sp) with
          | some r2 =>
            let tryFrom := fun (extra : Nat) (r3 : Str) =>
              let sp2 := (r3.takeWhile isSpaceJS).length
              (dropCI "bp".toList (r3.drop sp2)).map
                (fun _ => base + sp + 7 + extra + sp2 + 2)
            (match r2 with
              | 's' :: r3 =>
                (match tryFrom 1 r3 with
                  | some n => some n
                  | none => tryFrom 0 r2)
              | 'S' :: r3 =>
                (match tryFrom 1 r3 with
                  | some n => some n
                  | none => tryFrom 0 r2)
              | _ => tryFrom 0 r2)
          | none => none
      (match full with
        | some n => some n
        | none => some base)
    | none => none
  match alt1 with
  | some n => some n
  | none =>
    match dropCI "fluclass".toList s with
    | some r =>
      let sp := (r.takeWhile isSpaceJS).length
      (dropCS "500".toList (r.drop sp)).map (fun _ => 8 + sp + 3)
    | none =>
      match dropCI "bustop".toList s with
      | some _ => some 6
      | none =>
        match dropCI "vitamin".toList s with
        | some r =>
          let sp := (r.takeWhile isSpaceJS).length
          match dropCI "b".toList (r.drop sp) with
          | some r2 =>
            let dash := match r2 with
              | '-' :: _ => 1
              | _ => 0
            match dropCI "complex".toList (r2.drop dash) with
            | some r3 =>
              let sp2 := (r3.takeWhile isSpaceJS).length
              (dropCI "syrup".toList (r3.drop sp2)).map
                (fun _ => 7 + sp + 1 + dash + 7 + sp2 + 5)
            | none => none
          | none => none
        | none => none

/-- `fullDatePattern` alternative 1 with the surrounding boundaries:
`\d{4}[\/\-\.]\d{1,2}[\/\-\.]\d{1,2}` followed by `\b` (so the final digit
run must be covered entirely). -/
def fullDate1Len (s : Str) : Option Nat :=
  let y := s.take 4
  if y.length == 4 && y.all isDigitChar then
    match s.drop 4 with
    | c1 :: r1 =>
      if isSlashSep c1 then
        let m1 := r1.takeWhile isDigitChar
        if 1 ≤ m1.length && m1.length ≤ 2 then
          match r1.dropWhile isDigitChar with
          | c2 :: r2 =>
            if isSlashSep c2 then
              let d := r2.takeWhile isDigitChar
              if 1 ≤ d.length && d.length ≤ 2 && bAfter (r2.drop d.length) then
                some (4 + 1 + m1.length + 1 + d.length)
              else none
            else none
          | [] => none
        else none
      else none
    | [] => none
  else none

/-- `fullDatePattern` alternative 2 with boundaries:
`\d{1,2}[\/\-\.]\d{1,2}[\/\-\.]\d{2,4}` + `\b`. -/
def fullDate2Len (s : Str) : Option Nat :=
  let d := s.takeWhile isDigitChar
  if 1 ≤ d.length && d.length ≤ 2 then
    match s.dropWhile isDigitChar with
    | c1 :: r1 =>
      if isSlashSep c1 then
        let m1 := r1.takeWhile isDigitChar
        if 1 ≤ m1.length && m1.length ≤ 2 then
          match r1.dropWhile isDigitChar with
          | c2 :: r2 =>
            if isSlashSep c2 then
              let y := r2.takeWhile isDigitChar
              if 2 ≤ y.length && y.length ≤ 4 && bAfter (r2.drop y.length) then
                some (d.length + 1 + m1.length + 1 + y.length)
              else none
            else none
          | [] => none
        else none
      else none
    | [] => none
  else none

/-- `fullDatePattern` alternative 3 with boundaries:
`Month[a-z]*\s+\d{1,2},?\s*\d{2,4}` + `\b` (the year group must cover its
whole run). -/
def fullDate3Len (s : Str) : Option Nat :=
  match month3At s with
  | none => none
  | some _ =>
    let letters := ((s.drop 3).takeWhile isLetterAZ).length
    let i1 := 3 + letters
    let r := s.drop i1
    let sp := (r.takeWhile isSpaceJS).length
    if sp == 0 then none
    else
      let r2 := r.drop sp
      let dayRun := (r2.takeWhile isDigitChar).length
      let tryDay := fun (k : Nat) =>
        if 1 ≤ k && k ≤ dayRun then
          let r3 := r2.drop k
          let comma := match r3 with
            | ',' :: _ => 1
            | _ => 0
          let r4 := r3.drop comma
          let sp2 := (r4.takeWhile isSpaceJS).length
          let yr := (r4.drop sp2).takeWhile isDigitChar
          if 2 ≤ yr.length && yr.length ≤ 4 && bAfter ((r4.drop sp2).drop yr.length) then
            some (i1 + sp + k + comma + sp2 + yr.length)
          else none
        else none
      match tryDay 2 with
      | some n => some n
      | none => tryDay 1

/-- One attempt of `fullDatePattern` (alternatives in order; the leading `\b`
is checked by the scanner). -/
def fullDateLen (s : Str) : Option Nat :=
  match fullDate1Len s with
  | some n => some n
  | none =>
    match fullDate2Len s with
    | some n => some n
    | none => fullDate3Len s

/-- `matchAll` of `fullDatePattern` : global non-overlapping scan carrying the
real previous character for the boundary checks. -/
def fullDateScanGo : Nat → Option Char → Str → List Str
  | 0, _, _ => []
  | _, _, [] => []
  | fuel + 1, prev, c :: rest =>
    if !isWordOpt prev then
      match fullDateLen (c :: rest) with
      | some n =>
        let m := (c :: rest).take n
        m :: fullDateScanGo fuel m.getLast? ((c :: rest).drop (max n 1))
      | none => fullDateScanGo fuel (some c) rest
    else fullDateScanGo fuel (some c) rest

def fullDateMatchAll (s : Str) : List Str := fullDateScanGo s.length none s

/-- Attempt of `monthYearPattern = /\b(Month)[a-z]*[.\-\/\s]+(\d{2,4})\b/i`,
returning month number and year digits. -/
def monthYearTryAt (s : Str) : Option (Nat × Str) :=
  match month3At s with
  | none => none
  | some mo =>
    let r := (s.drop 3).dropWhile isLetterAZ
    let seps := (r.takeWhile isDateSep).length
    if seps == 0 then none
    else
      let r2 := r.drop seps
      let yr := r2.takeWhile isDigitChar
      if 2 ≤ yr.length && yr.length ≤ 4 && bAfter (r2.drop yr.length) then some (mo, yr)
      else none

/-- `monthYearToIso` (aiExtraction.js). -/
def monthYearToIso (m : Nat × Str) : Str :=
  expandYear2 m.2 ++ '-' :: padStart2 (natToStr m.1) ++ "-01".toList

/-- Attempt of `batchPattern` =
`/\b(?:Batch(?:\s*No\.?)?|Lot|LOT|BNo|BN|BATCH)\s*[:\-]?\s*([A-Z0-9\-]{3,})\b/i`
(no boundary after the keyword; the greedy optional `No` part is tried first;
the greedy value run backtracks until the trailing boundary holds). -/
def batchPatValue (r : Str) : Option Str :=
  let run := r.takeWhile isBatchValChar
  ((List.range (run.length + 1)).reverse.find? (fun k =>
      3 ≤ k && jsBoundary ((run.take k).getLast?) ((r.drop k).head?))).map run.take

def batchPatTail (r : Str) : Option Str :=
  let sp := (r.takeWhile isSpaceJS).length
  let r1 := r.drop sp
  let colon := match r1 with
    | ':' :: _ => 1
    | '-' :: _ => 1
    | _ => 0
  batchPatValue ((r1.drop colon).dropWhile isSpaceJS)

def batchPatTry (s : Str) : Option Str :=
  match dropCI "batch".toList s with
  | some r =>
    let withNo :=
      match dropCI "no".toList (r.dropWhile isSpaceJS) with
      | some r2 =>
        (match r2 with
          | '.' :: r3 =>
            (match batchPatTail r3 with
              | some v => some v
              | none => batchPatTail r2)
          | _ => batchPatTail r2)
      | none => none
    (match withNo with
      | some v => some v
      | none => batchPatTail r)
  | none =>
    match dropCI "lot".toList s with
    | some r => batchPatTail r
    | none =>
      match dropCI "bno".toList s with
      | some r => batchPatTail r
      | none =>
        match dropCI "bn".toList s with
        | some r => batchPatTail r
        | none => none

/-- `mfgHint = /(?:Mfg\.?|MFG|DOM|उत्पादन)/i` as a test. -/
def testMfgHint (l : Str) : Bool :=
  containsCI "mfg".toList l || containsCI "dom".toList l || containsSub "उत्पादन".toList l

/-- Substring test for `A\s*B` (two literals joined by optional whitespace),
used by the Devanagari expiry hints. -/
def containsWsJoin (a b : Str) : Str → Bool
  | [] => false
  | c :: rest =>
    (match dropCS a (c :: rest) with
      | some r => (dropCS b (r.dropWhile isSpaceJS)).isSome
      | none => false)
      || containsWsJoin a b rest

/-- `expHint = /(?:Exp\.?|EXP|Expiry|Use by|Best before|स्याढ\s*सकिने|म्याद\s*सकिने)/i`
as a test. -/
def testExpHint (l : Str) : Bool :=
  containsCI "exp".toList l || containsCI "use by".toList l
    || containsCI "best before".toList l
    || containsWsJoin "स्याढ".toList "सकिने".toList l
    || containsWsJoin "म्याद".toList "सकिने".toList l

/-- `extractWithRegex` (aiExtraction.js). -/
def extractWithRegex (src : Str) : CandidateRecord :=
  let nameMatch := scanLeft (fun t => (namePatTry t).map t.take) src
  let fullDates := fullDateMatchAll src
  let batch := scanLeftB batchPatTry none src
  let lines := splitLinesRaw src
  let mfgLine := (lines.find? testMfgHint).getD []
  let expLine := (lines.find? testExpHint).getD []
  let mfg0 := (scanLeftB monthYearTryAt none mfgLine).map monthYearToIso
  let exp0 := (scanLeftB monthYearTryAt none expLine).map monthYearToIso
  let filled :=
    if !jsTruthyStr mfg0 || !jsTruthyStr exp0 then
      match fullDates with
      | d1 :: d2 :: _ => (orJS mfg0 (some d1), orJS exp0 (some d2))
      | [d1] => (mfg0, orJS exp0 (some d1))
      | [] => (mfg0, exp0)
    else (mfg0, exp0)
  let mfg := orJS (toIsoDate filled.1) filled.1
  let exp := orJS (toIsoDate filled.2) filled.2
  let pack := extractPackInfo src
  let mrp := extractMRP src
  { name := nameMatch.map (fun m => trimJS (collapseWs m))
    manufacturing_date := mfg
    batch_number := orJS batch none
    expiry_date := exp
    slips_count := pack.1
    tablets_per_slip := pack.2
    mrp_amount := mrp.mrpAmount
    mrp_currency := mrp.mrpCurrency
    mrp_text := mrp.mrpText }

/-! ## Uses/Indications (`extractUsesFromText`, aiExtraction.js) -/

/-- Keyword alternation `(Indications?|Uses?)` with its trailing `\b`
(greedy optional `s` first), returning the consumed length. -/
def indUsesKwLen (s : Str) : Option Nat :=
  match dropCI "indication".toList s with
  | some r =>
    (match r with
      | c :: r2 =>
        if ciEq c 's' then
          if bAfter r2 then some 11 else if bAfter r then some 10 else none
        else if bAfter r then some 10 else none
      | [] => some 10)
  | none =>
    match dropCI "use".toList s with
    | some r =>
      (match r with
        | c :: r2 =>
          if ciEq c 's' then
            if bAfter r2 then some 4 else if bAfter r then some 3 else none
          else if bAfter r then some 3 else none
        | [] => some 3)
    | none => none

/-- Leftmost match of `/\b(Indications?|Uses?)\b\s*[:\-]\s*(.+)$/i` on a line,
returning the `m[2]` capture.  After the separator, `\s*` is greedy; if only
whitespace remains, `(.+)$` still matches by giving one space back (the later
trim and emptiness filter then drop such parts). -/
def usesLineCapture (l : Str) : Option Str := go none l
where
  go : Option Char → Str → Option Str
    | _, [] => none
    | prev, c :: rest =>
      (if !isWordOpt prev then
        match indUsesKwLen (c :: rest) with
        | some n =>
          (match ((c :: rest).drop n).dropWhile isSpaceJS with
            | h :: t =>
              if h == ':' || h == '-' then
                (if t.isEmpty then none
                 else
                  let cap := t.dropWhile isSpaceJS
                  some (if cap.isEmpty then [' '] else cap))
              else none
            | [] => none)
        | none => none
      else none).elim (go (some c) rest) some

/-- Split on a character class (JS `String.prototype.split` with a one-character
class; empty pieces are kept, the caller filters). -/
def splitOnChars (sep : Char → Bool) : Str → List Str := go []
where
  go (cur : Str) : Str → List Str
    | [] => [cur.reverse]
    | c :: rest => if sep c then cur.reverse :: go [] rest else go (c :: cur) rest

/-- The capture class `[a-z ,&\-\/]` of `INLINE_RE` (with the `i` flag). -/
def inlineUseClass (c : Char) : Bool :=
  isLetterAZ c || c == ' ' || c == ',' || c == '&' || c == '-' || c == '/'

/-- The terminator alternation `(?:\.|,|;|$)` of `INLINE_RE`. -/
def inlineTerm (c : Char) : Bool := c == '.' || c == ',' || c == ';'

/-- Lazy capture `([a-z ,&\-\/]+?)` up to the first terminator: consume class
characters one at a time, stopping as soon as the next character is a
terminator or the string ends.  Returns (capture, consumed length including a
consumed terminator). -/
def inlineLazyGo (acc : Str) : Str → Option (Str × Nat)
  | [] => none
  | c :: rest =>
    if inlineUseClass c then
      let acc2 := c :: acc
      match rest with
      | [] => some (acc2.reverse, acc2.length)
      | d :: _ =>
        if inlineTerm d then some (acc2.reverse, acc2.length + 1)
        else inlineLazyGo acc2 rest
    else none

/-- Attempt of `INLINE_RE =
/\bfor (?:the )?(?:relief|treatment|management|control) of ([a-z ,&\-\/]+?)(?:\.|,|;|$)/ig`
at the start of `s` (leading `\b` checked by the scanner), returning consumed
length and capture. -/
def inlineUseTryAt (s : Str) : Option (Nat × Str) :=
  match dropCI "for ".toList s with
  | none => none
  | some r0 =>
    let withThe := dropCI "the ".toList r0
    let the4 := if withThe.isSome then 4 else 0
    let r1 := withThe.getD r0
    let tryWord := fun (w : Str) =>
      match dropCI w r1 with
      | some r2 =>
        (match dropCI " of ".toList r2 with
          | some r3 =>
            (inlineLazyGo [] r3).map (fun p => (4 + the4 + w.length + 4 + p.2, p.1))
          | none => none)
      | none => none
    match tryWord "relief".toList with
    | some out => some out
    | none =>
      match tryWord "treatment".toList with
      | some out => some out
      | none =>
        match tryWord "management".toList with
        | some out => some out
        | none => tryWord "control".toList

/-- Global scan of `INLINE_RE` over the whole text, collecting captures. -/
def inlineUseScanGo : Nat → Option Char → Str → List Str
  | 0, _, _ => []
  | _, _, [] => []
  | fuel + 1, prev, c :: rest =>
    if !isWordOpt prev then
      match inlineUseTryAt (c :: rest) with
      | some (n, cap) =>
        cap :: inlineUseScanGo fuel ((c :: rest).take (max n 1)).getLast?
          ((c :: rest).drop (max n 1))
      | none => inlineUseScanGo fuel (some c) rest
    else inlineUseScanGo fuel (some c) rest

def inlineUseMatchAll (s : Str) : List Str := inlineUseScanGo s.length none s

/-- Attempt of `NEP_RE = /(?:का लागि|उपचार|राहत)\s*([^\.\,;]+)/g`. -/
def nepUseTryAt (s : Str) : Option (Nat × Str) :=
  let kw :=
    match dropCS "का लागि".toList s with
    | some _ => some ("का लागि".toList.length)
    | none =>
      match dropCS "उपचार".toList s with
      | some _ => some ("उपचार".toList.length)
      | none => (dropCS "राहत".toList s).map (fun _ => "राहत".toList.length)
  match kw with
  | none => none
  | some n =>
    let r := s.drop n
    let sp := (r.takeWhile isSpaceJS).length
    let cap := (r.drop sp).takeWhile (fun c => !(c == '.' || c == ',' || c == ';'))
    if cap.isEmpty then none else some (n + sp + cap.length, cap)

def nepUseScanGo : Nat → Str → List Str
  | 0, _ => []
  | _, [] => []
  | fuel + 1, c :: rest =>
    match nepUseTryAt (c :: rest) with
    | some (n, cap) => cap :: nepUseScanGo fuel ((c :: rest).drop (max n 1))
    | none => nepUseScanGo fuel rest

def nepUseMatchAll (s : Str) : List Str := nepUseScanGo s.length s

/-- `u.replace(/^\b(mild|moderate|severe)\b\s+/i, '').trim()` : the anchored
severity word (followed by its boundary, which the mandatory whitespace
guarantees) and the whitespace run are stripped. -/
def stripSeverity (u : Str) : Str :=
  let tryW := fun (w : Str) =>
    match dropCI w u with
    | some r =>
      (match r with
        | c :: _ => if isSpaceJS c then some (r.dropWhile isSpaceJS) else none
        | [] => none)
    | none => none
  let stripped :=
    match tryW "mild".toList with
    | some r => r
    | none =>
      match tryW "moderate".toList with
      | some r => r
      | none =>
        match tryW "severe".toList with
        | some r => r
        | none => u
  trimJS stripped

/-- `extractUsesFromText` (aiExtraction.js): label-line captures, then inline
"for ... of" phrases, then Devanagari phrases; insertion-ordered set, severity
prefixes stripped, short entries dropped, first ten kept. -/
def extractUsesFromText (text : Str) : List Str :=
  let lines := linesTrimmed text
  let fromLines := lines.flatMap (fun l =>
    match usesLineCapture l with
    | some cap =>
      ((splitOnChars (fun c => c == ';' || c == ',' || c == '•' || c == '·') cap).map
        (fun p => trimJS (collapseWs p))).filter (fun v => !v.isEmpty)
    | none => [])
  let fromInline := (inlineUseMatchAll text).flatMap (fun cap =>
    ((splitOnChars (fun c => c == ',' || c == '&' || c == '/') cap).map
      (fun p => trimJS (collapseWs p))).filter (fun v => !v.isEmpty))
  let fromNep := (nepUseMatchAll text).map (fun cap => trimJS (collapseWs cap))
    |>.filter (fun v => !v.isEmpty)
  let uses := dedupKeepFirst (fromLines ++ fromInline ++ fromNep)
  ((uses.map stripSeverity).filter (fun u => 3 ≤ u.length)).take 10

/-! ## OCR text cleanup (`devnagToAsciiDigits`, `cleanupOCR`, aiExtraction.js) -/

/-- Devanagari digit to ASCII digit. -/
def devnagDigit (c : Char) : Char :=
  if c == '०' then '0' else if c == '१' then '1' else if c == '२' then '2'
  else if c == '३' then '3' else if c == '४' then '4' else if c == '५' then '5'
  else if c == '६' then '6' else if c == '७' then '7' else if c == '८' then '8'
  else if c == '९' then '9' else c

/-- `devnagToAsciiDigits` (aiExtraction.js). -/
def devnagToAsciiDigits (s : Str) : Str := s.map devnagDigit

/-- Generic global regex replacement: fuelled left-to-right scan; a match
consumes its span and emits the replacement, carrying the original previous
character for boundary contexts. -/
def replaceAllGo (tryAt : Option Char → Str → Option (Nat × Str)) :
    Nat → Option Char → Str → Str
  | 0, _, s => s
  | _, _, [] => []
  | fuel + 1, prev, c :: rest =>
    match tryAt prev (c :: rest) with
    | some (n, repl) =>
      repl ++ replaceAllGo tryAt fuel ((c :: rest).take (max n 1)).getLast?
        ((c :: rest).drop (max n 1))
    | none => c :: replaceAllGo tryAt fuel (some c) rest

def replaceAll (tryAt : Option Char → Str → Option (Nat × Str)) (s : Str) : Str :=
  replaceAllGo tryAt s.length none s

/-- `replace(/Capsu\\?es/gi, 'Capsules')` ("Capsu", an optional literal
backslash, "es"). -/
def capsuTry (_ : Option Char) (s : Str) : Option (Nat × Str) :=
  match dropCI "capsu".toList s with
  | none => none
  | some r =>
    let bs := match r with
      | '\\' :: _ => 1
      | _ => 0
    (dropCI "es".toList (r.drop bs)).map (fun _ => (5 + bs + 2, "Capsules".toList))

/-- `replace(/\bMig\.?\b/gi, 'Mfg.')` : with a consumed dot the trailing
boundary needs a word character next; without it, a non-word character or the
end. -/
def migTry (prev : Option Char) (s : Str) : Option (Nat × Str) :=
  if isWordOpt prev then none
  else
    match dropCI "mig".toList s with
    | none => none
    | some r =>
      (match r with
        | '.' :: r2 =>
          if isWordOpt r2.head? then some (4, "Mfg.".toList)
          else if bAfter r then some (3, "Mfg.".toList)
          else none
        | _ => if bAfter r then some (3, "Mfg.".toList) else none)

/-- `replace(/\bExpir[yil]+\b/gi, 'Expiry')`. -/
def expirTry (prev : Option Char) (s : Str) : Option (Nat × Str) :=
  if isWordOpt prev then none
  else
    match dropCI "expir".toList s with
    | none => none
    | some r =>
      let run := r.takeWhile (fun c => ciEq c 'y' || ciEq c 'i' || ciEq c 'l')
      if 1 ≤ run.length && bAfter (r.drop run.length) then
        some (5 + run.length, "Expiry".toList)
      else none

/-- Case-sensitive `replace(/\bW\b/g, repl)` for a literal word `W`. -/
def literalWordTry (w repl : Str) (prev : Option Char) (s : Str) : Option (Nat × Str) :=
  if isWordOpt prev then none
  else
    match dropCS w s with
    | some r => if bAfter r then some (w.length, repl) else none
    | none => none

/-- `replace(/[^\S\r\n]+/g, ' ')` : runs of horizontal whitespace become one
space. -/
def horizWsTry (_ : Option Char) (s : Str) : Option (Nat × Str) :=
  let isHws := fun (c : Char) => isSpaceJS c && c != '\r' && c != '\n'
  match s with
  | c :: _ =>
    if isHws c then some (((s.takeWhile isHws).length), [' ']) else none
  | [] => none

/-- `cleanupOCR` (aiExtraction.js): Devanagari digits to ASCII, then the six
word repairs, then horizontal-whitespace collapsing, in source order. -/
def cleanupOCR (text : Str) : Str :=
  let s := devnagToAsciiDigits text
  let s := replaceAll capsuTry s
  let s := replaceAll migTry s
  let s := replaceAll expirTry s
  let s := replaceAll (literalWordTry "0CT".toList "OCT".toList) s
  let s := replaceAll (literalWordTry "SEF".toList "SEP".toList) s
  let s := replaceAll (literalWordTry "SEN".toList "SEP".toList) s
  replaceAll horizWsTry s

/-! ## Common-uses enrichment (aiExtraction.js) -/

/-- `COMMON_USES_BY_INGREDIENT`, in object-key order. -/
def commonUsesByIngredient : List (Str × List Str) :=
  [("paracetamol".toList, ["pain".toList, "fever".toList]),
   ("acetaminophen".toList, ["pain".toList, "fever".toList]),
   ("ibuprofen".toList, ["pain".toList, "inflammation".toList, "fever".toList]),
   ("loperamide".toList, ["acute diarrhea".toList]),
   ("oral rehydration salts".toList, ["dehydration due to diarrhea".toList]),
   ("cetirizine".toList, ["allergic rhinitis".toList, "itching".toList]),
   ("amoxicillin".toList, ["bacterial infections (as prescribed)".toList]),
   ("flucloxacillin".toList, ["susceptible staphylococcal infections (as prescribed)".toList])]

/-- `inferActiveFromName` (aiExtraction.js). -/
def inferActiveFromName (name : Option Str) : Option Str :=
  match name with
  | none => none
  | some n =>
    if n.isEmpty then none
    else
      (commonUsesByIngredient.find? (fun p => containsSub p.1 (lowerStr n))).map (fun p => p.1)

/-- `COMMON_USES_BY_INGREDIENT[k]` lookup. -/
def commonUsesLookup (k : Str) : Option (List Str) :=
  (commonUsesByIngredient.find? (fun p => p.1 == k)).map (fun p => p.2)

/-! ## OCR Engine Adapter models

The OCR engine (`Tesseract.recognize` / `worker.recognize`) is an external
call; its outcome is a parameter of type `Except Str TessData` — `ok` carries
the `data` payload, `error` a thrown failure. -/

/-- The `{ text, confidence }` payload (`OcrResult` of the spec). -/
structure OcrResult where
  text : Str
  confidence : ℚ
deriving DecidableEq, Repr

/-- `performOCR` (aiExtraction.js): preprocesses and recognizes; the result
object is built from `result.data` on success, and a recognition failure
propagates to the caller (there is no try/catch inside). -/
def performOCR (engine : Except Str OcrResult) : Except Str OcrResult :=
  match engine with
  | .ok d => .ok { text := d.text, confidence := d.confidence }
  | .error e => .error e

/-- `ocrBuffer` (src/lib/ocr.ts): returns `data?.text ?? ''` on success; the
`finally` block only terminates the worker, so a recognition failure
propagates. -/
def ocrBuffer (engine : Except Str OcrResult) : Except Str Str :=
  match engine with
  | .ok d => .ok d.text
  | .error e => .error e

/-- The per-image OCR stage of `extractProductDataFromImages`
(aiExtraction.js, the `for` loop): each successful image pushes its text (with
`text || ''`) and appends it plus a newline to the combined text; a failed
image is logged and skipped ("continuing"), aborting nothing.  Returns
(perImageTexts, combinedText). -/
def pipelineOcrStageAux : List (Except Str OcrResult) → List Str × Str → List Str × Str
  | [], acc => acc
  | r :: t, acc =>
    match r with
    | .ok d =>
      pipelineOcrStageAux t
        (acc.1 ++ [(orJS (some d.text) (some [])).getD []],
          acc.2 ++ (orJS (some d.text) (some [])).getD [] ++ ['\n'])
    | .error _ => pipelineOcrStageAux t acc

def pipelineOcrStage (rs : List (Except Str OcrResult)) : List Str × Str :=
  pipelineOcrStageAux rs ([], [])

/-! ## Pipeline (`extractProductDataFromImages`, aiExtraction.js)

External effects are parameters: `vision` is the parsed vision-model response
(`none` both when the call threw and when `safeParseMaybe` returned `null`),
`ocrOutcomes` the per-image engine outcomes, `ai` the parsed text-model
response (`none` when the call threw or parsing failed), and `currentYear`
stands for `new Date().getFullYear()`.  The prompt-building (hint string
fields, schema text) only feeds the external model calls, whose outcome is
already a parameter, and is therefore not modelled; of `buildHints` only the
`_lines` field flows into the returned record. -/

/-- The final record: `CandidateRecord` fields plus `inferred_uses` and the
`_source` provenance tag. -/
structure FinalRecord where
  name : Option Str := none
  manufacturing_date : Option Str := none
  batch_number : Option Str := none
  expiry_date : Option Str := none
  slips_count : Option ℚ := none
  tablets_per_slip : Option ℚ := none
  mrp_amount : Option ℚ := none
  mrp_currency : Option Str := none
  mrp_text : Option Str := none
  uses_on_label : Option (List Str) := none
  active_ingredient_on_label : Option Str := none
  strength_on_label : Option Str := none
  dosage_form_on_label : Option Str := none
  inferred_uses : Option (List Str) := none
  _source : Option Str := none
deriving DecidableEq, Repr

/-- `if (vision.batch_number) vision.batch_number = finalizeBatch(...)` :
only a truthy batch is re-normalized. -/
def visionAdjust (v : CandidateRecord) : CandidateRecord :=
  if jsTruthyStr v.batch_number then { v with batch_number := finalizeBatch v.batch_number }
  else v

/-- `Object.values(processed).some(v => v != null && v !== '')` over the
thirteen schema fields: a non-null, non-empty-string value (numbers and
arrays always qualify when present). -/
def anyFieldSufficient (r : CandidateRecord) : Bool :=
  let strOk := fun (o : Option Str) => o.isSome && !(o.getD []).isEmpty
  strOk r.name || strOk r.manufacturing_date || strOk r.batch_number
    || strOk r.expiry_date || r.slips_count.isSome || r.tablets_per_slip.isSome
    || r.mrp_amount.isSome || strOk r.mrp_currency || strOk r.mrp_text
    || r.uses_on_label.isSome || strOk r.active_ingredient_on_label
    || strOk r.strength_on_label || strOk r.dosage_form_on_label

/-- Copy the thirteen schema fields into a `FinalRecord`. -/
def toFinalBase (r : CandidateRecord) : FinalRecord :=
  { name := r.name
    manufacturing_date := r.manufacturing_date
    batch_number := r.batch_number
    expiry_date := r.expiry_date
    slips_count := r.slips_count
    tablets_per_slip := r.tablets_per_slip
    mrp_amount := r.mrp_amount
    mrp_currency := r.mrp_currency
    mrp_text := r.mrp_text
    uses_on_label := r.uses_on_label
    active_ingredient_on_label := r.active_ingredient_on_label
    strength_on_label := r.strength_on_label
    dosage_form_on_label := r.dosage_form_on_label }

/-- The vision tier of `extractProductDataFromImages` : the vision record
(batch re-normalized when truthy, dates processed with empty OCR text) is
returned with `_source: 'vision'` when any field is sufficient; otherwise the
pipeline falls through. -/
def visionTier (v : CandidateRecord) (currentYear : Nat) : Option FinalRecord :=
  let processed := processExtractedData (visionAdjust v) [] currentYear
  if anyFieldSufficient processed then
    some { toFinalBase processed with _source := some "vision".toList }
  else none

/-- The OCR fallback tier of `extractProductDataFromImages` : the OCR texts
are cleaned and split into hint lines, the regex fallback and label pulls
always run, the batch is voted and finalized, dates are post-processed, and
the conservative enrichment is applied.  The returned `_source` is
`'ocr_llm'` when the text model parsed, otherwise `processed._source` — a
property the merged record never has, hence `none` (undefined). -/
def ocrFallbackTier (ocrOutcomes : List (Except Str OcrResult))
    (ai : Option CandidateRecord) (currentYear : Nat) : FinalRecord :=
  let ocr := pipelineOcrStage ocrOutcomes
  let cleanedOriginal := cleanupOCR ocr.2
  let hintLines := linesTrimmed cleanedOriginal
  let usesRegexOnly := extractUsesFromText cleanedOriginal
  let rx := extractWithRegex cleanedOriginal
  let labelHits := extractBatchAndMfgFromLines hintLines
  let merged := mergeResults (ai.getD {}) rx hintLines labelHits
  let votedBatch := pickBestBatch ocr.1 hintLines (ai.bind (fun a => a.batch_number))
    rx.batch_number
  let finalBatch := finalizeBatch (orJS votedBatch merged.batch_number)
  let processed := processExtractedData { merged with batch_number := finalBatch }
    cleanedOriginal currentYear
  let activeGuess := orJS processed.active_ingredient_on_label
    (inferActiveFromName processed.name)
  let inferredUses : Option (List Str) :=
    if processed.uses_on_label.isNone && jsTruthyStr activeGuess then
      match commonUsesLookup (activeGuess.getD []) with
      | some l => some (l.take 6)
      | none => none
    else none
  { toFinalBase processed with
    uses_on_label := match processed.uses_on_label with
      | some l => some l
      | none => if usesRegexOnly.isEmpty then none else some usesRegexOnly
    active_ingredient_on_label := orJS processed.active_ingredient_on_label
      (orJS activeGuess none)
    strength_on_label := orJS processed.strength_on_label none
    dosage_form_on_label := orJS processed.dosage_form_on_label none
    inferred_uses := inferredUses
    _source := match ai with
      | some _ => some "ocr_llm".toList
      | none => none }

/-- `extractProductDataFromImages` (aiExtraction.js): vision first, OCR
fallback when the vision call failed, parsed to null, or was insufficient. -/
def extractProductDataFromImages (vision : Option CandidateRecord)
    (ocrOutcomes : List (Except Str OcrResult)) (ai : Option CandidateRecord)
    (currentYear : Nat) : FinalRecord :=
  match vision with
  | some v =>
    (match visionTier v currentYear with
      | some out => out
      | none => ocrFallbackTier ocrOutcomes ai currentYear)
  | none => ocrFallbackTier ocrOutcomes ai currentYear

/-! ## Scanner route (src/app/api/scanner/route.ts) -/

/-- `/(\d)\s*my\b/gi -> "$1 mg"` (and the `mq` twin): one digit, optional
whitespace, the unit word, trailing boundary. -/
def myMqTry (unit : Str) (_ : Option Char) (s : Str) : Option (Nat × Str) :=
  match s with
  | d :: r =>
    if isDigitChar d then
      let sp := (r.takeWhile isSpaceJS).length
      match dropCI unit (r.drop sp) with
      | some r2 => if bAfter r2 then some (1 + sp + 2, [d, ' ', 'm', 'g']) else none
      | none => none
    else none
  | [] => none

/-- `/\b1O0\b/g -> "100"` (case-sensitive, letter `O`). -/
def oneO0Try (prev : Option Char) (s : Str) : Option (Nat × Str) :=
  literalWordTry "1O0".toList "100".toList prev s

/-- `/\bO(\d)\b/g -> "0$1"`. -/
def oDigitTry (prev : Option Char) (s : Str) : Option (Nat × Str) :=
  if isWordOpt prev then none
  else
    match s with
    | 'O' :: d :: r =>
      if isDigitChar d && bAfter r then some (2, ['0', d]) else none
    | _ => none

/-- `normalizeOcrNoise` (route.ts). -/
def normalizeOcrNoise (s : Str) : Str :=
  let s := replaceAll (myMqTry "my".toList) s
  let s := replaceAll (myMqTry "mq".toList) s
  let s := replaceAll oneO0Try s
  replaceAll oDigitTry s

/-- Keyword test `\bw(s)?\b` (optionally allowing a trailing `s`), scanned
over the whole string. -/
def testWordKw (w : Str) (optS : Bool) (s : Str) : Bool := go none s
where
  go : Option Char → Str → Bool
    | _, [] => false
    | prev, c :: rest =>
      (!isWordOpt prev &&
        (match dropCI w (c :: rest) with
          | some r =>
            (optS && (match r with
              | h :: t => ciEq h 's' && bAfter t
              | [] => false))
              || bAfter r
          | none => false))
        || go (some c) rest

/-- `guessDosageForm` (route.ts): the label hint and the text blob are simply
concatenated (lowercased) and the ten keyword families are tested in fixed
priority order. -/
def guessDosageForm (label blob : Option Str) : Option Str :=
  let s := lowerStr (orEmpty label ++ ' ' :: orEmpty blob)
  if testWordKw "tablet".toList true s then some "TABLET".toList
  else if testWordKw "capsule".toList true s || testWordKw "cap".toList true s then
    some "CAPSULE".toList
  else if testWordKw "syrup".toList false s then some "SYRUP".toList
  else if testWordKw "suspension".toList false s then some "SUSPENSION".toList
  else if testWordKw "solution".toList false s then some "SOLUTION".toList
  else if testWordKw "drop".toList true s then some "DROPS".toList
  else if testWordKw "injection".toList false s then some "INJECTION".toList
  else if testWordKw "ointment".toList false s then some "OINTMENT".toList
  else if testWordKw "cream".toList false s then some "CREAM".toList
  else if testWordKw "gel".toList false s then some "GEL".toList
  else none

/-- The route's dosage-form decision (route.ts, POST):
`decided || (dosageLabel ? dosageLabel.toUpperCase() : null)` — keyword
inference over the concatenation first, the uppercased label hint only as
fallback. -/
def routeDosageFormEnum (dosageLabel : Option Str) (combinedText : Str) : Option Str :=
  match guessDosageForm dosageLabel (some combinedText) with
  | some f => some f
  | none => if jsTruthyStr dosageLabel then some (upperStr (dosageLabel.getD [])) else none

/-- `["SYRUP","SUSPENSION","SOLUTION","DROPS"].includes(String(dosageFormEnum || ""))`. -/
def isLiquidForm (o : Option Str) : Bool :=
  let s := (orJS o (some [])).getD []
  s == "SYRUP".toList || s == "SUSPENSION".toList || s == "SOLUTION".toList
    || s == "DROPS".toList

/-- The result object of `parseLiquidMeta`; the explicit `null` assigned to
`bottleVolumeMl` when only dose-sized volumes occur and an absent field both
embed as `none` (every consumer reads the fields with `?? null`). -/
structure LiquidMeta where
  bottleVolumeMl : Option ℚ := none
  bottlesPerPack : Option ℚ := none
  doseMl : Option ℚ := none
  concentrationMgPer5ml : Option ℚ := none
  concentrationLabel : Option Str := none
deriving DecidableEq, Repr

/-- Attempt of `/(\d{2,4})\s*ml\b/gi` : greedy digit group sizes 4, 3, 2
(a size smaller than the whole run leaves a digit where `ml` must match, so
only a full run of two to four digits can succeed), then the unit and its
boundary; returns consumed length and captured value. -/
def volTryAt (s : Str) : Option (Nat × Nat) :=
  let run := s.takeWhile isDigitChar
  let tryK := fun (k : Nat) =>
    if k ≤ run.length then
      let sp := ((s.drop k).takeWhile isSpaceJS).length
      match dropCI "ml".toList (s.drop (k + sp)) with
      | some r2 =>
        if bAfter r2 then some (k + sp + 2, digitsToNat (run.take k)) else none
      | none => none
    else none
  match tryK 4 with
  | some out => some out
  | none =>
    match tryK 3 with
    | some out => some out
    | none => tryK 2

/-- `matchAll` of the volume pattern. -/
def volScanGo : Nat → Str → List Nat
  | 0, _ => []
  | _, [] => []
  | fuel + 1, c :: rest =>
    match volTryAt (c :: rest) with
    | some (n, v) => v :: volScanGo fuel ((c :: rest).drop (max n 1))
    | none => volScanGo fuel rest

def volMatchAll (s : Str) : List Nat := volScanGo s.length s

/-- Attempt of `mPack = /(\d{1,2})\s*[x×]\s*\d{2,4}\s*ml/i`. -/
def packMlTry (s : Str) : Option Nat :=
  let run := s.takeWhile isDigitChar
  let tryK := fun (k : Nat) =>
    if k ≤ run.length then
      match (s.drop k).dropWhile isSpaceJS with
      | c :: r2 =>
        if isXChar c then
          let r3 := r2.dropWhile isSpaceJS
          let run2 := r3.takeWhile isDigitChar
          let tryK2 := fun (k2 : Nat) =>
            if k2 ≤ run2.length then
              let sp := ((r3.drop k2).takeWhile isSpaceJS).length
              if (dropCI "ml".toList (r3.drop (k2 + sp))).isSome then
                some (digitsToNat (run.take k))
              else none
            else none
          (match tryK2 4 with
            | some v => some v
            | none =>
              match tryK2 3 with
              | some v => some v
              | none => tryK2 2)
        else none
      | [] => none
    else none
  match tryK 2 with
  | some v => some v
  | none => tryK 1

/-- Attempt of one dose alternative `\bKW\s*(\d{1,2})\s*ml\b` (`KW` is `per`
or `each`; the leading boundary is checked by the scanner). -/
def doseKwTry (kw : Str) (s : Str) : Option Nat :=
  match dropCI kw s with
  | none => none
  | some r =>
    let r1 := r.dropWhile isSpaceJS
    let run := r1.takeWhile isDigitChar
    let tryK := fun (k : Nat) =>
      if k ≤ run.length then
        let sp := ((r1.drop k).takeWhile isSpaceJS).length
        match dropCI "ml".toList (r1.drop (k + sp)) with
        | some r2 => if bAfter r2 then some (digitsToNat (run.take k)) else none
        | none => none
      else none
    match tryK 2 with
    | some v => some v
    | none => tryK 1

/-- Attempt of `/\b(\d{1,2})\s*ml\s*contains\b/i`. -/
def doseContainsTry (s : Str) : Option Nat :=
  let run := s.takeWhile isDigitChar
  let tryK := fun (k : Nat) =>
    if k ≤ run.length then
      let r1 := (s.drop k).dropWhile isSpaceJS
      match dropCI "ml".toList r1 with
      | some r2 =>
        (match dropCI "contains".toList (r2.dropWhile isSpaceJS) with
          | some r3 => if bAfter r3 then some (digitsToNat (run.take k)) else none
          | none => none)
      | none => none
    else none
  match tryK 2 with
  | some v => some v
  | none => tryK 1

/-- The dose number of `parseLiquidMeta` : the three alternatives combined
with `||` in source order, each searched over the whole text. -/
def doseMatch (t : Str) : Option Nat :=
  match scanLeftB (doseKwTry "per".toList) none t with
  | some v => some v
  | none =>
    match scanLeftB (doseKwTry "each".toList) none t with
    | some v => some v
    | none => scanLeftB doseContainsTry none t

/-- Decimal number capture `(\d+(?:[.,]\d+)?)` at the start of `s` (whole
digit runs; a shorter greedy choice leaves a digit where `mg` must match),
returning (consumed, integer digits, fraction digits). -/
def decNumTry (s : Str) : Option (Nat × Str × Str) :=
  let intPart := s.takeWhile isDigitChar
  if intPart.isEmpty then none
  else
    match s.drop intPart.length with
    | c :: t =>
      if c == '.' || c == ',' then
        let frac := t.takeWhile isDigitChar
        if frac.isEmpty then some (intPart.length, intPart, [])
        else some (intPart.length + 1 + frac.length, intPart, frac)
      else some (intPart.length, intPart, [])
    | [] => some (intPart.length, intPart, [])

/-- Attempt of `/(\d+(?:[.,]\d+)?)\s*mg\s*(?:\/|per)\s*N\s*ml/i` with the
literal `N` (`5` or `10`); `Number(m[1].replace(",", "."))` is the exact
decimal. -/
def concTry (litN : Str) (s : Str) : Option ℚ :=
  match decNumTry s with
  | none => none
  | some (n, intPart, frac) =>
    let r1 := (s.drop n).dropWhile isSpaceJS
    match dropCI "mg".toList r1 with
    | none => none
    | some r2 =>
      let r3 := r2.dropWhile isSpaceJS
      let slash := match r3 with
        | '/' :: t => some t
        | _ => (dropCI "per".toList r3)
      match slash with
      | none => none
      | some r4 =>
        let r5 := r4.dropWhile isSpaceJS
        match dropCS litN r5 with
        | none => none
        | some r6 =>
          if (dropCI "ml".toList (r6.dropWhile isSpaceJS)).isSome then
            some (decToRat intPart frac)
          else none

/-- `Math.round` (half toward positive infinity) on an exact rational. -/
def jsRound (q : ℚ) : ℤ := Int.fdiv (2 * q.num + q.den) (2 * q.den)

/-- Split on `'\n'` only (the `[^\n]` line segments of the label-line
patterns). -/
def splitNlGo (cur : Str) : Str → List Str
  | [] => [cur.reverse]
  | '\n' :: rest => cur.reverse :: splitNlGo [] rest
  | c :: rest => splitNlGo (c :: cur) rest

def splitNl (s : Str) : List Str := splitNlGo [] s

/-- Test for `\bper\s*N\s*ml` (literal `N`) inside a line. -/
def testPerNml (litN : Str) (l : Str) : Bool := go none l
where
  go : Option Char → Str → Bool
    | _, [] => false
    | prev, c :: rest =>
      (!isWordOpt prev &&
        (match dropCI "per".toList (c :: rest) with
          | some r =>
            (match dropCS litN (r.dropWhile isSpaceJS) with
              | some r2 => (dropCI "ml".toList (r2.dropWhile isSpaceJS)).isSome
              | none => false)
          | none => false))
        || go (some c) rest

/-- Test for `\beach\s*\d{1,2}\s*ml` inside a line. -/
def testEachMl (l : Str) : Bool := go none l
where
  go : Option Char → Str → Bool
    | _, [] => false
    | prev, c :: rest =>
      (!isWordOpt prev && (doseKwTry "each".toList (c :: rest)).isSome)
        || go (some c) rest

/-- `mLine` of `parseLiquidMeta` : `([^\n]*?\bper\s*5\s*ml[^\n]*)` (then the
`per 10` and `each` variants).  The lazy prefix cannot cross a newline, so
the capture is exactly the first line containing an occurrence, and it is
then trimmed. -/
def concLabelLine (t : Str) : Option Str :=
  let lines := splitNl t
  match lines.find? (testPerNml "5".toList) with
  | some l => some (trimJS l)
  | none =>
    match lines.find? (testPerNml "10".toList) with
    | some l => some (trimJS l)
    | none => (lines.find? testEachMl).map trimJS

/-- `parseLiquidMeta` (route.ts). -/
def parseLiquidMeta (raw : Str) : LiquidMeta :=
  let t := normalizeOcrNoise raw
  let volMatches := volMatchAll t
  let bottleVolumeMl : Option ℚ :=
    if volMatches.isEmpty then none
    else
      match (volMatches.filter (fun v => 30 ≤ v && v ≤ 500)).head? with
      | some v => some (natRat v)
      | none => none
  let bottlesPerPack := (scanLeft packMlTry t).map natRat
  let doseMl := (doseMatch t).map natRat
  let concentrationMgPer5ml : Option ℚ :=
    match scanLeft (concTry "5".toList) t with
    | some v => some v
    | none =>
      match scanLeft (concTry "10".toList) t with
      | some v => some (mkRat (jsRound (mkRat (500 * v.num) v.den)) 1000)
      | none => none
  { bottleVolumeMl := bottleVolumeMl
    bottlesPerPack := bottlesPerPack
    doseMl := doseMl
    concentrationMgPer5ml := concentrationMgPer5ml
    concentrationLabel := concLabelLine t }

/-- One row of the route's per-image OCR display list: a failed image yields
`{ text: "", confidence: 0 }` in the `catch` branch; a successful one rounds
`confidence || 0`. -/
structure RouteOcrRow where
  originalName : Str
  text : Str
  confidence : ℤ
deriving DecidableEq, Repr

def routeOcrRow (name : Str) (r : Except Str OcrResult) : RouteOcrRow :=
  let nm := (orJS (some name) (some "image".toList)).getD []
  match r with
  | .ok d => { originalName := nm
               text := (orJS (some d.text) (some [])).getD []
               confidence := jsRound (if d.confidence == 0 then 0 else d.confidence) }
  | .error _ => { originalName := nm, text := [], confidence := 0 }

/-- The route's per-image OCR loop (route.ts, POST step 2): one row per
image, failures caught per image. -/
def routeOcrResults (imgs : List (Str × Except Str OcrResult)) : List RouteOcrRow :=
  imgs.map (fun p => routeOcrRow p.1 p.2)

/-- The route's combined text: successful texts with newlines; a failed image
contributes nothing. -/
def routeCombinedText (imgs : List (Str × Except Str OcrResult)) : Str :=
  imgs.foldl
    (fun acc p =>
      match p.2 with
      | .ok d => acc ++ (orJS (some d.text) (some [])).getD [] ++ ['\n']
      | .error _ => acc)
    []

/-- The `source` field of the route's `extractedData` (route.ts line 968):
`extracted?._source || "vision"`. -/
def routeSourceField (s : Option Str) : Str :=
  (orJS s (some "vision".toList)).getD []

/-! # Helper lemmas -/

/-- `text || ''` is the identity on strings. -/
theorem orJS_some_getD (x : Str) : (orJS (some x) (some [])).getD [] = x := by
  cases x <;> simp [orJS, jsTruthyStr]

/-! # Claims -/

/-! ## C1 : graceful degradation and the `_source` tag -/

/-- Claim C1, counterexample.  With the vision extractor and the text-model
extractor both returning `null` the pipeline does return a record, but its
`_source` is undefined (`none`) — not `"regex-only"`, which the code never
produces: the fallback reads `processed._source`, a property the merged
record never has. -/
theorem claim1_counterexample :
    (extractProductDataFromImages none [.ok ⟨"Batch: AB 1234\n".toList, 80⟩] none 2024)._source
        = none
      ∧ (extractProductDataFromImages none [.ok ⟨"Batch: AB 1234\n".toList, 80⟩] none
          2024)._source ≠ some "regex-only".toList := by
  exact ⟨rfl, by decide⟩

/-- Claim C1, amended.  The pipeline is total (a record is always returned;
recoverable extraction failures are parameters, none throws), and the
provenance tag is: `none` (undefined) when both model extractors return null,
`"ocr_llm"` whenever the text model parsed, `"vision"` when the vision record
is sufficient after processing; the API route's `source` field maps the
undefined tag to its default `"vision"`. -/
theorem claim1_source_tag :
    (∀ ocr year, (extractProductDataFromImages none ocr none year)._source = none)
      ∧ (∀ ocr year r,
          (extractProductDataFromImages none ocr (some r) year)._source
            = some "ocr_llm".toList)
      ∧ (∀ v ocr ai year,
          anyFieldSufficient (processExtractedData (visionAdjust v) [] year) = true →
            (extractProductDataFromImages (some v) ocr ai year)._source
              = some "vision".toList)
      ∧ routeSourceField none = "vision".toList := by
  refine ⟨fun ocr year => rfl, fun ocr year r => rfl, fun v ocr ai year h => ?_, rfl⟩
  have hv : visionTier v year
      = some { toFinalBase (processExtractedData (visionAdjust v) [] year) with
               _source := some "vision".toList } := by
    simp only [visionTier, h, if_true]
  have key : extractProductDataFromImages (some v) ocr ai year
      = (match visionTier v year with
          | some out => out
          | none => ocrFallbackTier ocr ai year) := rfl
  rw [key, hv]

/-- Claim C1, witness for the amended theorem's hypothesis: a vision record
with a sufficient field is tagged `"vision"`. -/
theorem claim1_witness :
    (extractProductDataFromImages (some { name := some "Paracetamol 500mg".toList })
        [] none 2024)._source = some "vision".toList :=
  claim1_source_tag.2.2.1 { name := some "Paracetamol 500mg".toList } [] none 2024 (by decide)

/-! ## C8 : character-confusion repairs inside letter runs -/

/-- Claim C8.  The repair regexes carry the lookbehind context
`(?<=\b[A-Z])`, so a digit is repaired only when the single letter before it
opens the word: `"A0C 1234"` is repaired to `"AOC 1234"`, but in
`"AB0C 1234"` the zero between `B` and `C` is NOT repaired (contradicting the
code's own comment "0 used as O between letters (inside alpha runs)") and
normalization rejects the token, whereas the repaired form `"ABOC 1234"`
would be accepted. -/
theorem claim8_confusion_repairs :
    normalizeBatchToken (some "AB0C 1234".toList) = none
      ∧ normalizeBatchToken (some "A0C 1234".toList) = some "AOC 1234".toList
      ∧ normalizeBatchToken (some "ABOC 1234".toList) = some "ABOC 1234".toList
      ∧ confusionRepairs "AB0C 1234".toList = "AB0C 1234".toList := by
  decide

/-! ## C9 : OCR failure handling -/

/-- Claim C9, counterexample.  The recognize operation itself propagates an
engine failure to its caller instead of returning `{ text: "", confidence: 0 }`
(both `performOCR` of aiExtraction.js and `ocrBuffer` of src/lib/ocr.ts). -/
theorem claim9_counterexample :
    performOCR (.error "engine crashed".toList) = .error "engine crashed".toList
      ∧ performOCR (.error "engine crashed".toList)
          ≠ .ok { text := [], confidence := 0 }
      ∧ ocrBuffer (.error "engine crashed".toList) = .error "engine crashed".toList := by
  refine ⟨rfl, ?_, rfl⟩
  intro h
  cases h

/-- Claim C9, amended.  The adapter propagates failures; each caller recovers
per image: the API route's display loop substitutes `{ text: "", confidence: 0 }`
for a failed image and produces exactly one row per image, and the pipeline's
OCR stage keeps the successful texts and skips failed images, so a single
failure never aborts the batch. -/
theorem claim9_ocr_failure :
    (∀ e, performOCR (.error e) = .error e)
      ∧ (∀ e, ocrBuffer (.error e) = .error e)
      ∧ (∀ name e, routeOcrRow name (.error e)
          = { originalName := (orJS (some name) (some "image".toList)).getD []
              text := []
              confidence := 0 })
      ∧ (∀ imgs, (routeOcrResults imgs).length = imgs.length)
      ∧ (∀ rs, (pipelineOcrStage rs).1
          = rs.filterMap (fun r =>
              match r with
              | .ok d => some d.text
              | .error _ => none)) := by
  refine ⟨fun e => rfl, fun e => rfl, fun name e => rfl, fun imgs => ?_, fun rs => ?_⟩
  · simp [routeOcrResults]
  · have key : ∀ (rs : List (Except Str OcrResult)) (acc : List Str × Str),
        (pipelineOcrStageAux rs acc).1
          = acc.1 ++ rs.filterMap (fun r =>
              match r with
              | .ok d => some d.text
              | .error _ => none) := by
      intro rs
      induction rs with
      | nil => intro acc; simp [pipelineOcrStageAux]
      | cons r t ih =>
        intro acc
        cases r with
        | ok d =>
          simp [pipelineOcrStageAux, ih, orJS_some_getD]
        | error e =>
          simp [pipelineOcrStageAux, ih]
    have hfold : pipelineOcrStage rs = pipelineOcrStageAux rs ([], []) := rfl
    rw [hfold, key]
    rfl

/-! ## List scanning lemmas -/

theorem takeWhile_all {α : Type} (p : α → Bool) (l : List α) :
    (l.takeWhile p).all p = true := by
  induction l with
  | nil => rfl
  | cons a t ih =>
    unfold List.takeWhile
    cases h : p a
    · rfl
    · simp [h, ih]

theorem takeWhile_of_all {α : Type} (p : α → Bool) (l : List α) (h : l.all p = true) :
    l.takeWhile p = l := by
  induction l with
  | nil => rfl
  | cons a t ih =>
    simp only [List.all_cons, Bool.and_eq_true] at h
    unfold List.takeWhile
    simp [h.1, ih h.2]

theorem dropWhile_of_all {α : Type} (p : α → Bool) (l : List α) (h : l.all p = true) :
    l.dropWhile p = [] := by
  induction l with
  | nil => rfl
  | cons a t ih =>
    simp only [List.all_cons, Bool.and_eq_true] at h
    unfold List.dropWhile
    simp [h.1, ih h.2]

theorem takeWhile_append_stop {α : Type} (p : α → Bool) (l r : List α) (c : α)
    (h : l.all p = true) (hc : p c = false) : (l ++ c :: r).takeWhile p = l := by
  induction l with
  | nil => simp [List.takeWhile, hc]
  | cons a t ih =>
    simp only [List.all_cons, Bool.and_eq_true] at h
    simp only [List.cons_append]
    unfold List.takeWhile
    simp [h.1, ih h.2]

theorem dropWhile_append_stop {α : Type} (p : α → Bool) (l r : List α) (c : α)
    (h : l.all p = true) (hc : p c = false) : (l ++ c :: r).dropWhile p = c :: r := by
  induction l with
  | nil => simp [List.dropWhile, hc]
  | cons a t ih =>
    simp only [List.all_cons, Bool.and_eq_true] at h
    simp only [List.cons_append]
    unfold List.dropWhile
    simp [h.1, ih h.2]

/-! ## C2 : batch shape invariant -/

/-- Whatever `shapeTryAt` returns satisfies the canonical shape bounds (the
groups are built from `takeWhile` runs guarded by the length checks). -/
theorem shapeTryAt_inv {s : Str} {m : BatchShape} (h : shapeTryAt s = some m) :
    m.letters.all isUpperAZ = true ∧ 2 ≤ m.letters.length ∧ m.letters.length ≤ 5
      ∧ m.digits.all isDigitChar = true ∧ 4 ≤ m.digits.length ∧ m.digits.length ≤ 6 := by
  simp only [shapeTryAt] at h
  split at h
  · split at h
    · rename_i h1 h2
      simp only [Bool.and_eq_true, decide_eq_true_eq] at h1 h2
      cases h
      refine ⟨takeWhile_all _ _, h1.1, h1.2, takeWhile_all _ _, ?_, ?_⟩
      · tauto
      · tauto
    · exact absurd h (by simp)
  · exact absurd h (by simp)

/-- The scanner only ever returns a `shapeTryAt` result. -/
theorem shapeSearch_inv :
    ∀ (prev : Option Char) (s : Str) (m : BatchShape), shapeSearch prev s = some m →
      m.letters.all isUpperAZ = true ∧ 2 ≤ m.letters.length ∧ m.letters.length ≤ 5
        ∧ m.digits.all isDigitChar = true ∧ 4 ≤ m.digits.length ∧ m.digits.length ≤ 6 := by
  intro prev s
  induction s generalizing prev with
  | nil => intro m h; exact absurd h (by simp [shapeSearch])
  | cons c rest ih =>
    intro m h
    unfold shapeSearch at h
    split at h
    · cases hT : shapeTryAt (c :: rest) with
      | some m0 =>
        rw [hT] at h
        cases h
        exact shapeTryAt_inv hT
      | none =>
        rw [hT] at h
        exact ih (some c) m h
    · exact ih (some c) m h

/-- Every non-null `normalizeBatchToken` result is `letters ++ ' ' ++ digits`
with the canonical bounds. -/
theorem normalizeBatchToken_canon {x r : Str}
    (h : normalizeBatchToken (some x) = some r) :
    ∃ L D : Str, r = L ++ ' ' :: D
      ∧ L.all isUpperAZ = true ∧ 2 ≤ L.length ∧ L.length ≤ 5
      ∧ D.all isDigitChar = true ∧ 4 ≤ D.length ∧ D.length ≤ 6 := by
  simp only [normalizeBatchToken] at h
  split at h
  · exact absurd h (by simp)
  · cases hS : shapeSearch none
        (collapseWs2 (blFix (confusionRepairs
          (trimJS (collapseWs (stripNonBatch (upperStr x))))))) with
    | none => rw [hS] at h; exact absurd h (by simp)
    | some m =>
      rw [hS] at h
      cases h
      obtain ⟨a1, a2, a3, a4, a5, a6⟩ := shapeSearch_inv _ _ _ hS
      exact ⟨m.letters, m.digits, rfl, a1, a2, a3, a4, a5, a6⟩

/-- The spec-side anchored shape check accepts every canonical
`letters ++ ' ' ++ digits` string. -/
theorem specBatchShape_canon (L D : Str)
    (hL : L.all isUpperAZ = true) (h2 : 2 ≤ L.length) (h5 : L.length ≤ 5)
    (hD : D.all isDigitChar = true) (h4 : 4 ≤ D.length) (h6 : D.length ≤ 6) :
    specBatchShape (L ++ ' ' :: D) = true := by
  unfold specBatchShape
  rw [takeWhile_append_stop _ _ _ _ hL (by decide),
    dropWhile_append_stop _ _ _ _ hL (by decide)]
  simp only [List.head?_cons, List.drop_one, List.tail_cons,
    takeWhile_of_all _ _ hD, dropWhile_of_all _ _ hD]
  simp [h2, h5, h4, h6]

/-- Claim C2.  Every non-null result of the Batch Code Normalizer — either
`normalizeBatchToken` directly or through `finalizeBatch` — matches the
spec's anchored shape `2-5 uppercase letters, one space, 4-6 digits`. -/
theorem claim2_batch_shape (raw r : Str)
    (h : normalizeBatchToken (some raw) = some r ∨ finalizeBatch (some raw) = some r) :
    specBatchShape r = true := by
  have core : normalizeBatchToken (some raw) = some r → specBatchShape r = true := by
    intro hn
    obtain ⟨L, D, hr, hL, h2, h5, hD, h4, h6⟩ := normalizeBatchToken_canon hn
    rw [hr]
    exact specBatchShape_canon L D hL h2 h5 hD h4 h6
  cases h with
  | inl hn => exact core hn
  | inr hf =>
    cases hn : normalizeBatchToken (some raw) with
    | none =>
      simp only [finalizeBatch, hn] at hf
      exact absurd hf (by simp)
    | some n =>
      simp only [finalizeBatch, hn] at hf
      split at hf
      · cases hf
        exact core hn
      · exact absurd hf (by simp)

/-- Claim C2, witness: the normalizer output for the spec's scenario-A token
satisfies the shape. -/
theorem claim2_witness : specBatchShape "FBSL 2209".toList = true :=
  claim2_batch_shape "FBLSL 2209".toList "FBSL 2209".toList
    (Or.inr (by decide))

/-! ## C5 : date precedence in the merge -/

/-- `a || b` with a truthy left operand. -/
theorem orJS_pos {a b : Option Str} (h : jsTruthyStr a = true) : orJS a b = a := by
  simp [orJS, h]

/-- `a || b` with a falsy left operand. -/
theorem orJS_neg {a b : Option Str} (h : jsTruthyStr a = false) : orJS a b = b := by
  simp [orJS, h]

/-- Claim C5, counterexample.  The hint line `"Exp: 2025-01-01"` carries an
expiry keyword and a full date token, yet the merge takes the model's expiry
(`extractBatchAndMfgFromLines` extracts no expiry from hinted lines, and the
merge's expiry chain is `ai?.expiry_date || rx.expiry_date || null`): the
hinted tier does not exist for `expiry_date`. -/
theorem claim5_counterexample :
    testExpHint "Exp: 2025-01-01".toList = true
      ∧ findFirstDateToken "Exp: 2025-01-01".toList = some "2025-01-01".toList
      ∧ (mergeResults { expiry_date := some "2030-12-31".toList } {}
            ["Exp: 2025-01-01".toList]
            (extractBatchAndMfgFromLines ["Exp: 2025-01-01".toList])).expiry_date
          = some "2030-12-31".toList
      ∧ some "2030-12-31".toList ≠ some "2025-01-01".toList := by
  refine ⟨by decide, by decide, by decide, by decide⟩

/-- Claim C5, amended.  For `manufacturing_date` the three-tier precedence
holds exactly as claimed (hinted label lines over model output over regex
output, with JS truthiness).  For `expiry_date` there is no hinted tier at
all: the merged expiry ignores the label hits entirely, and the precedence is
model output over regex output. -/
theorem claim5_date_precedence :
    (∀ ai rx lines hits, jsTruthyStr hits.manufacturing_date = true →
        (mergeResults ai rx lines hits).manufacturing_date = hits.manufacturing_date)
      ∧ (∀ ai rx lines hits, jsTruthyStr hits.manufacturing_date = false →
          jsTruthyStr ai.manufacturing_date = true →
            (mergeResults ai rx lines hits).manufacturing_date = ai.manufacturing_date)
      ∧ (∀ ai rx lines hits, jsTruthyStr hits.manufacturing_date = false →
          jsTruthyStr ai.manufacturing_date = false →
          jsTruthyStr rx.manufacturing_date = true →
            (mergeResults ai rx lines hits).manufacturing_date = rx.manufacturing_date)
      ∧ (∀ ai rx lines hits1 hits2,
          (mergeResults ai rx lines hits1).expiry_date
            = (mergeResults ai rx lines hits2).expiry_date)
      ∧ (∀ ai rx lines hits, jsTruthyStr ai.expiry_date = true →
          (mergeResults ai rx lines hits).expiry_date = ai.expiry_date)
      ∧ (∀ ai rx lines hits, jsTruthyStr ai.expiry_date = false →
          jsTruthyStr rx.expiry_date = true →
            (mergeResults ai rx lines hits).expiry_date = rx.expiry_date) := by
  have hm : ∀ (ai rx : CandidateRecord) (lines : List Str) (hits : LabelHits),
      (mergeResults ai rx lines hits).manufacturing_date
        = orJS hits.manufacturing_date
            (orJS ai.manufacturing_date (orJS rx.manufacturing_date none)) :=
    fun ai rx lines hits => rfl
  have he : ∀ (ai rx : CandidateRecord) (lines : List Str) (hits : LabelHits),
      (mergeResults ai rx lines hits).expiry_date
        = orJS ai.expiry_date (orJS rx.expiry_date none) :=
    fun ai rx lines hits => rfl
  refine ⟨fun ai rx lines hits h1 => ?_, fun ai rx lines hits h1 h2 => ?_,
    fun ai rx lines hits h1 h2 h3 => ?_, fun ai rx lines hits1 hits2 => ?_,
    fun ai rx lines hits h1 => ?_, fun ai rx lines hits h1 h2 => ?_⟩
  · rw [hm, orJS_pos h1]
  · rw [hm, orJS_neg h1, orJS_pos h2]
  · rw [hm, orJS_neg h1, orJS_neg h2, orJS_pos h3]
  · rw [he, he]
  · rw [he, orJS_pos h1]
  · rw [he, orJS_neg h1, orJS_pos h2]

/-- Claim C5, witness: a truthy hinted manufacturing date wins. -/
theorem claim5_witness :
    (mergeResults {} {} [] { batch_number := none
                             manufacturing_date := some "2024-01-01".toList }).manufacturing_date
      = some "2024-01-01".toList :=
  claim5_date_precedence.1 {} {} []
    { batch_number := none, manufacturing_date := some "2024-01-01".toList } (by decide)

/-! ## C7 : dosage-form decision -/

/-- Claim C7, counterexample.  With the explicit label hint `"syrup"` and a
blob containing the keyword `tablet`, the decided form is `TABLET`, not the
hinted `SYRUP`: the hint is merely concatenated with the blob and the keyword
priority order decides. -/
theorem claim7_counterexample :
    guessDosageForm (some "syrup".toList) (some "take 1 tablet daily".toList)
        = some "TABLET".toList
      ∧ routeDosageFormEnum (some "syrup".toList) "take 1 tablet daily".toList
          = some "TABLET".toList
      ∧ some "TABLET".toList ≠ some "SYRUP".toList := by
  refine ⟨by decide, by decide, by decide⟩

/-- Claim C7, amended.  `guessDosageForm` concatenates hint and blob and
tests the keyword families in fixed priority order — `tablet` anywhere in the
combination decides `TABLET` regardless of the hint; the uppercased label
hint is used only as a fallback when no keyword matches at all. -/
theorem claim7_dosage_form :
    (∀ label blob,
        testWordKw "tablet".toList true (lowerStr (orEmpty label ++ ' ' :: orEmpty blob))
            = true →
          guessDosageForm label blob = some "TABLET".toList)
      ∧ (∀ label blob, guessDosageForm (some label) (some blob) = none → label ≠ [] →
          routeDosageFormEnum (some label) blob = some (upperStr label)) := by
  constructor
  · intro label blob h
    simp only [guessDosageForm, h, if_true]
  · intro label blob h hl
    cases label with
    | nil => exact absurd rfl hl
    | cons c t => simp [routeDosageFormEnum, h, jsTruthyStr]

/-- Claim C7, witness: the keyword beats the hint at a concrete input. -/
theorem claim7_witness :
    guessDosageForm (some "syrup".toList) (some "one tablet".toList)
      = some "TABLET".toList :=
  claim7_dosage_form.1 (some "syrup".toList) (some "one tablet".toList) (by decide)

/-! ## C6 : liquid dose vs bottle volume -/

/-- Claim C6, counterexample.  The blob contains both tokens `"per 5 ml"` and
`"200 ml"`, yet the parser reports `dose_ml = 35` and `bottle_volume_ml = 35`:
the first `per N ml` phrase wins the dose and the first 30-500 ml token wins
the volume, so a preceding `"per 35 ml"` is reported as both — the two
quantities are conflated. -/
theorem claim6_counterexample :
    containsSub "per 5 ml".toList "per 35 ml\nper 5 ml\n200 ml".toList = true
      ∧ containsSub "200 ml".toList "per 35 ml\nper 5 ml\n200 ml".toList = true
      ∧ (parseLiquidMeta "per 35 ml\nper 5 ml\n200 ml".toList).doseMl = some 35
      ∧ (parseLiquidMeta "per 35 ml\nper 5 ml\n200 ml".toList).bottleVolumeMl = some 35 := by
  refine ⟨by decide, by decide, by decide, by decide⟩

/-! ## Character facts -/

theorem digit_toNat {c : Char} (h : isDigitChar c = true) :
    48 ≤ c.toNat ∧ c.toNat ≤ 57 := by
  simpa [isDigitChar] using h

theorem char_beq_false {c d : Char} (h : c.toNat ≠ d.toNat) : (c == d) = false := by
  cases hb : c == d
  · rfl
  · exact absurd (congrArg Char.toNat (eq_of_beq hb)) h

theorem isUpperAZ_digit {c : Char} (h : isDigitChar c = true) : isUpperAZ c = false := by
  rw [Bool.eq_false_iff]
  intro hu
  have hd := digit_toNat h
  simp [isUpperAZ] at hu
  omega

theorem jsToLower_digit {c : Char} (h : isDigitChar c = true) : jsToLower c = c := by
  simp [jsToLower, isUpperAZ_digit h]

theorem lower_beq_false {a c : Char} (ha : isDigitChar a = true) (hc : 97 ≤ c.toNat) :
    (jsToLower a == c) = false := by
  rw [jsToLower_digit ha]
  have hd := digit_toNat ha
  exact char_beq_false (by omega)

theorem digit_not_space {c : Char} (h : isDigitChar c = true) : isSpaceJS c = false := by
  have hd := digit_toNat h
  have h1 : (c == ' ') = false := char_beq_false (by rw [show Char.toNat ' ' = 32 from rfl]; omega)
  have h2 : (c == '\t') = false := char_beq_false (by rw [show Char.toNat '\t' = 9 from rfl]; omega)
  have h3 : (c == '\n') = false := char_beq_false (by rw [show Char.toNat '\n' = 10 from rfl]; omega)
  have h4 : (c == '\r') = false :=
    char_beq_false (by rw [show Char.toNat '\r' = 13 from rfl]; omega)
  have h5 : (c.toNat == 11) = false := by
    rw [Bool.eq_false_iff]; intro hx; have := eq_of_beq hx; omega
  have h6 : (c.toNat == 12) = false := by
    rw [Bool.eq_false_iff]; intro hx; have := eq_of_beq hx; omega
  simp [isSpaceJS, h1, h2, h3, h4, h5, h6]

theorem all_take {α : Type} (p : α → Bool) (l : List α) (k : Nat) (h : l.all p = true) :
    (l.take k).all p = true := by
  rw [List.all_eq_true] at h ⊢
  exact fun x hx => h x (List.take_subset k l hx)

theorem scanLeftB_some {α : Type} (tryAt : Str → Option α) :
    ∀ (s : Str) (prev : Option Char) (v : α),
      scanLeftB tryAt prev s = some v → ∃ s', tryAt s' = some v := by
  intro s
  induction s with
  | nil => intro prev v h; exact Option.noConfusion h
  | cons c rest ih =>
    intro prev v h
    simp only [scanLeftB] at h
    split at h
    · split at h
      · rename_i out heq
        exact ⟨c :: rest, heq.trans h⟩
      · exact ih (some c) v h
    · exact ih (some c) v h

theorem digitsToNat_fold_lt (l : Str) (h : l.all isDigitChar = true) :
    ∀ a B : Nat, a < B →
      l.foldl (fun a c => a * 10 + (c.toNat - 48)) a < B * 10 ^ l.length := by
  induction l with
  | nil => intro a B hab; simpa using hab
  | cons c t ih =>
    intro a B hab
    rw [List.all_cons, Bool.and_eq_true] at h
    have hc := digit_toNat h.1
    rw [List.foldl_cons, List.length_cons, pow_succ]
    exact lt_of_lt_of_eq (ih h.2 (a * 10 + (c.toNat - 48)) (B * 10) (by omega)) (by ring)

theorem digitsToNat_le_99 (l : Str) (h : l.all isDigitChar = true) (hlen : l.length ≤ 2) :
    digitsToNat l ≤ 99 := by
  have hlt := digitsToNat_fold_lt l h 0 1 (by omega)
  have hp : (10 : Nat) ^ l.length ≤ 100 := by
    calc (10 : Nat) ^ l.length ≤ 10 ^ 2 := Nat.pow_le_pow_right (by omega) hlen
      _ = 100 := by norm_num
  unfold digitsToNat
  omega

theorem run_take_le (s : Str) (k : Nat) (hk : k ≤ 2) :
    digitsToNat ((s.takeWhile isDigitChar).take k) ≤ 99 := by
  apply digitsToNat_le_99
  · exact all_take _ _ _ (takeWhile_all isDigitChar s)
  · rw [List.length_take]
    omega

theorem doseKwTry_le {kw s : Str} {n : Nat} (h : doseKwTry kw s = some n) : n ≤ 99 := by
  simp only [doseKwTry] at h
  split at h
  · exact Option.noConfusion h
  · rename_i r hr
    split at h
    · rename_i v heq
      have hvn : v = n := Option.some.inj h
      split at heq
      · split at heq
        · rename_i r2 hml
          split at heq
          · exact ((Option.some.inj heq).trans hvn) ▸ run_take_le _ 2 (by omega)
          · exact Option.noConfusion heq
        · exact Option.noConfusion heq
      · exact Option.noConfusion heq
    · split at h
      · split at h
        · rename_i r2 hml
          split at h
          · exact (Option.some.inj h) ▸ run_take_le _ 1 (by omega)
          · exact Option.noConfusion h
        · exact Option.noConfusion h
      · exact Option.noConfusion h

theorem doseContainsTry_le {s : Str} {n : Nat} (h : doseContainsTry s = some n) : n ≤ 99 := by
  simp only [doseContainsTry] at h
  split at h
  · rename_i v heq
    have hvn : v = n := Option.some.inj h
    split at heq
    · split at heq
      · rename_i r2 hml
        split at heq
        · rename_i r3 hcont
          split at heq
          · exact ((Option.some.inj heq).trans hvn) ▸ run_take_le _ 2 (by omega)
          · exact Option.noConfusion heq
        · exact Option.noConfusion heq
      · exact Option.noConfusion heq
    · exact Option.noConfusion heq
  · split at h
    · split at h
      · rename_i r2 hml
        split at h
        · rename_i r3 hcont
          split at h
          · exact (Option.some.inj h) ▸ run_take_le _ 1 (by omega)
          · exact Option.noConfusion h
        · exact Option.noConfusion h
      · exact Option.noConfusion h
    · exact Option.noConfusion h

theorem doseMatch_le {t : Str} {n : Nat} (h : doseMatch t = some n) : n ≤ 99 := by
  simp only [doseMatch] at h
  split at h
  · rename_i v heq
    obtain ⟨s', hs'⟩ := scanLeftB_some _ _ _ _ heq
    exact (Option.some.inj h) ▸ doseKwTry_le hs'
  · split at h
    · rename_i v heq
      obtain ⟨s', hs'⟩ := scanLeftB_some _ _ _ _ heq
      exact (Option.some.inj h) ▸ doseKwTry_le hs'
    · obtain ⟨s', hs'⟩ := scanLeftB_some _ _ _ _ h
      exact doseContainsTry_le hs'

/-- Claim C6 (amended): on the claim's own example blob (where `"per 5 ml"`
and `"200 ml"` are the only millilitre tokens) the parser does resolve
`dose_ml = 5` and `bottle_volume_ml = 200`; in general the two fields are
only range-separated, not token-separated — a dose is always a one- or
two-digit number (`≤ 99`) and a bottle volume always lies in `30..500`, so
the two can still coincide on the overlap (see the counterexample). -/
theorem claim6_liquid_disambiguation :
    ((parseLiquidMeta "Paracetamol 125 mg per 5 ml\nNet: 200 ml".toList).doseMl = some 5
      ∧ (parseLiquidMeta "Paracetamol 125 mg per 5 ml\nNet: 200 ml".toList).bottleVolumeMl
          = some 200)
    ∧ (∀ t q, (parseLiquidMeta t).doseMl = some q → ∃ n : Nat, n ≤ 99 ∧ q = natRat n)
    ∧ (∀ t q, (parseLiquidMeta t).bottleVolumeMl = some q →
        ∃ n : Nat, 30 ≤ n ∧ n ≤ 500 ∧ q = natRat n) := by
  refine ⟨⟨by decide, by decide⟩, ?_, ?_⟩
  · intro t q h
    have hd : (parseLiquidMeta t).doseMl
        = (doseMatch (normalizeOcrNoise t)).map natRat := rfl
    rw [hd] at h
    rw [Option.map_eq_some'] at h
    obtain ⟨n, hn, hq⟩ := h
    exact ⟨n, doseMatch_le hn, hq.symm⟩
  · intro t q h
    have hv : (parseLiquidMeta t).bottleVolumeMl
        = (if (volMatchAll (normalizeOcrNoise t)).isEmpty then none
           else
             match ((volMatchAll (normalizeOcrNoise t)).filter
                 (fun v => 30 ≤ v && v ≤ 500)).head? with
             | some v => some (natRat v)
             | none => none) := rfl
    rw [hv] at h
    split at h
    · exact Option.noConfusion h
    · split at h
      · rename_i v heq
        have hmem : v ∈ (volMatchAll (normalizeOcrNoise t)).filter
            (fun v => 30 ≤ v && v ≤ 500) := by
          cases hf : (volMatchAll (normalizeOcrNoise t)).filter
              (fun v => 30 ≤ v && v ≤ 500) with
          | nil => rw [hf] at heq; exact Option.noConfusion heq
          | cons a t2 =>
            rw [hf] at heq
            rw [List.head?_cons] at heq
            rw [Option.some.inj heq]
            exact List.mem_cons_self v t2
        have hp := (List.mem_filter.mp hmem).2
        simp only [Bool.and_eq_true, decide_eq_true_eq] at hp
        exact ⟨v, hp.1, hp.2, (Option.some.inj h).symm⟩
      · exact Option.noConfusion h

/-- Claim C6, witness: the dose bound at `"per 35 ml x"` (dose 35) and the
volume bound at `"Net: 200 ml"` (volume 200). -/
theorem claim6_witness :
    (∃ n : Nat, n ≤ 99 ∧ (35 : ℚ) = natRat n)
      ∧ (∃ n : Nat, 30 ≤ n ∧ n ≤ 500 ∧ (200 : ℚ) = natRat n) :=
  ⟨claim6_liquid_disambiguation.2.1 ("per 35 ml x".toList) 35 (by decide),
   claim6_liquid_disambiguation.2.2 ("Net: 200 ml".toList) 200 (by decide)⟩

/-! ## C4 : batch voting -/

theorem any_key_iff (acc : List (Str × Nat)) (t : Str) :
    acc.any (fun p => p.1 == t) = true ↔ t ∈ acc.map Prod.fst := by
  rw [List.any_eq_true]
  constructor
  · rintro ⟨p, hp, he⟩
    exact List.mem_map.mpr ⟨p, hp, eq_of_beq he⟩
  · intro hm
    obtain ⟨p, hp, he⟩ := List.mem_map.mp hm
    exact ⟨p, hp, by simp [he]⟩

theorem map_fst_update (acc : List (Str × Nat)) (t : Str) (w : Nat) :
    (acc.map (fun p => if p.1 == t then (p.1, p.2 + w) else p)).map Prod.fst
      = acc.map Prod.fst := by
  induction acc with
  | nil => rfl
  | cons p rest ih =>
    simp only [List.map_cons, ih]
    split <;> rfl

theorem addVote_mem (acc : List (Str × Nat)) (t : Str) (w : Nat) (k : Str) (n : Nat) :
    (k, n) ∈ addVote acc t w ↔
      (k ≠ t ∧ (k, n) ∈ acc)
        ∨ (k = t ∧ ∃ m, (t, m) ∈ acc ∧ n = m + w)
        ∨ (k = t ∧ t ∉ acc.map Prod.fst ∧ n = w) := by
  unfold addVote
  split
  · rename_i hany
    have htmem : t ∈ acc.map Prod.fst := (any_key_iff acc t).mp hany
    rw [List.mem_map]
    constructor
    · rintro ⟨p, hp, hpe⟩
      by_cases hpt : (p.1 == t) = true
      · rw [if_pos hpt] at hpe
        have hp1 : p.1 = t := eq_of_beq hpt
        injection hpe with h1 h2
        subst h2
        refine Or.inr (Or.inl ⟨h1 ▸ hp1, p.2, ?_, rfl⟩)
        have hpe2 : (t, p.2) = p := by rw [← hp1]
        rw [hpe2]
        exact hp
      · rw [if_neg hpt] at hpe
        have hk1 : p.1 = k := by rw [hpe]
        refine Or.inl ⟨?_, hpe ▸ hp⟩
        intro hkt
        exact hpt (beq_iff_eq.mpr (hk1.trans hkt))
    · rintro (⟨hk, hm⟩ | ⟨hkt, m, hm, hn⟩ | ⟨hkt, hnot, hn⟩)
      · exact ⟨(k, n), hm, by simp [beq_eq_false_iff_ne.mpr hk]⟩
      · refine ⟨(t, m), hm, ?_⟩
        rw [hn, hkt]
        simp
      · exact absurd htmem hnot
  · rename_i hany
    have htnot : t ∉ acc.map Prod.fst := by
      rw [← any_key_iff]
      simpa using hany
    rw [List.mem_append, List.mem_singleton]
    constructor
    · rintro (hm | he)
      · by_cases hkt : k = t
        · exact absurd (List.mem_map.mpr ⟨(k, n), hm, hkt⟩) htnot
        · exact Or.inl ⟨hkt, hm⟩
      · injection he with h1 h2
        exact Or.inr (Or.inr ⟨h1, htnot, h2⟩)
    · rintro (⟨hk, hm⟩ | ⟨hkt, m, hm, hn⟩ | ⟨hkt, hnot, hn⟩)
      · exact Or.inl hm
      · exact absurd (List.mem_map.mpr ⟨(t, m), hm, rfl⟩) htnot
      · refine Or.inr ?_
        rw [hkt, hn]

theorem addVote_key_mem (acc : List (Str × Nat)) (t : Str) (w : Nat) :
    t ∈ (addVote acc t w).map Prod.fst := by
  unfold addVote
  split
  · rename_i hany
    rw [map_fst_update]
    exact (any_key_iff acc t).mp hany
  · simp

theorem addVote_key_other {k t : Str} (hkt : k ≠ t) (acc : List (Str × Nat)) (w : Nat) :
    k ∈ (addVote acc t w).map Prod.fst ↔ k ∈ acc.map Prod.fst := by
  unfold addVote
  split
  · rw [map_fst_update]
  · simp [hkt]

theorem keyWeight_cons (k t : Str) (w : Nat) (vs : List (Str × Nat)) :
    keyWeight k ((t, w) :: vs) = (if k = t then w else 0) + keyWeight k vs := by
  unfold keyWeight
  by_cases h : k = t
  · subst h
    simp [List.filter_cons]
  · rw [List.filter_cons]
    have : ((t, w).1 == k) = false := beq_eq_false_iff_ne.mpr (Ne.symm h)
    simp [this, h]

theorem tally_char (k : Str) (n : Nat) :
    ∀ (vs acc : List (Str × Nat)),
      ((k, n) ∈ vs.foldl (fun acc p => addVote acc p.1 p.2) acc ↔
        (∃ m, (k, m) ∈ acc ∧ n = m + keyWeight k vs)
          ∨ (k ∉ acc.map Prod.fst ∧ k ∈ vs.map Prod.fst ∧ n = keyWeight k vs)) := by
  intro vs
  induction vs with
  | nil =>
    intro acc
    simp only [List.foldl_nil, List.map_nil, List.not_mem_nil, false_and, and_false,
      or_false]
    constructor
    · intro hm
      exact ⟨n, hm, by simp [keyWeight]⟩
    · rintro ⟨m, hm, rfl⟩
      simpa [keyWeight] using hm
  | cons p vs ih =>
    intro acc
    obtain ⟨t, w⟩ := p
    simp only [List.foldl_cons]
    rw [ih (addVote acc t w), keyWeight_cons]
    by_cases hkt : k = t
    · subst hkt
      rw [if_pos rfl]
      constructor
      · rintro (⟨m', hm', rfl⟩ | ⟨hnot, _, rfl⟩)
        · rcases (addVote_mem acc k w k m').mp hm' with ⟨hne, _⟩ | ⟨_, m, hm, rfl⟩
            | ⟨_, hnot, rfl⟩
          · exact absurd rfl hne
          · exact Or.inl ⟨m, hm, by omega⟩
          · exact Or.inr ⟨hnot, by simp, by omega⟩
        · exact absurd (addVote_key_mem acc k w) hnot
      · rintro (⟨m, hm, rfl⟩ | ⟨hnot, _, rfl⟩)
        · refine Or.inl ⟨m + w, ?_, by omega⟩
          exact (addVote_mem acc k w k (m + w)).mpr (Or.inr (Or.inl ⟨rfl, m, hm, rfl⟩))
        · refine Or.inl ⟨w, ?_, by omega⟩
          exact (addVote_mem acc k w k w).mpr (Or.inr (Or.inr ⟨rfl, hnot, rfl⟩))
    · have hmem : ∀ m, ((k, m) ∈ addVote acc t w ↔ (k, m) ∈ acc) := by
        intro m
        rw [addVote_mem]
        constructor
        · rintro (⟨_, hm⟩ | ⟨he, _⟩ | ⟨he, _⟩)
          · exact hm
          · exact absurd he hkt
          · exact absurd he hkt
        · intro hm
          exact Or.inl ⟨hkt, hm⟩
      simp only [if_neg hkt, hmem, addVote_key_other hkt, List.map_cons, List.mem_cons,
        hkt, false_or, if_false, Nat.zero_add]

theorem tally_mem_iff (vs : List (Str × Nat)) (k : Str) (n : Nat) :
    (k, n) ∈ tallyVotes vs ↔ k ∈ vs.map Prod.fst ∧ n = keyWeight k vs := by
  unfold tallyVotes
  rw [tally_char]
  simp

theorem keyWeight_perm {v1 v2 : List (Str × Nat)} (hp : v1.Perm v2) (k : Str) :
    keyWeight k v1 = keyWeight k v2 :=
  List.Perm.sum_eq ((hp.filter (fun p => p.1 == k)).map Prod.snd)

theorem tally_mem_perm {v1 v2 : List (Str × Nat)} (hp : v1.Perm v2) (y : Str × Nat) :
    y ∈ tallyVotes v1 ↔ y ∈ tallyVotes v2 := by
  obtain ⟨k, n⟩ := y
  rw [tally_mem_iff, tally_mem_iff, keyWeight_perm hp, (hp.map Prod.fst).mem_iff]

theorem beats_irrefl (y : Str × Nat) : beats y y = false := by
  simp [beats]

theorem selectBestGo_keep (xs : Str) (xw : Nat) (hx : xs ≠ []) :
    ∀ l : List (Str × Nat), (∀ y ∈ l, y = (xs, xw) ∨ beats (xs, xw) y = true) →
      selectBestGo l (some xs) ((xw : ℤ)) = some xs := by
  intro l
  induction l with
  | nil => intro _; rfl
  | cons y rest ih =>
    intro hall
    obtain ⟨k, v⟩ := y
    have hlen0 : xs.length ≠ 0 := fun h0 => hx (List.length_eq_zero.mp h0)
    have hrest : ∀ y ∈ rest, y = (xs, xw) ∨ beats (xs, xw) y = true :=
      fun y hm => hall y (List.mem_cons_of_mem _ hm)
    simp only [selectBestGo, blOf]
    rw [if_neg ?hc]
    · exact ih hrest
    case hc =>
      simp only [Bool.or_eq_true, decide_eq_true_eq, Bool.and_eq_true, beq_iff_eq]
      rcases hall (k, v) (List.mem_cons_self _ _) with hy | hy
      · injection hy with h1 h2
        subst h1
        subst h2
        intro hcon
        rcases hcon with hcon | ⟨_, hcon⟩
        · omega
        · split at hcon <;> rename_i hsp
          · omega
          · omega
      · simp only [beats, Bool.or_eq_true, Bool.and_eq_true, decide_eq_true_eq,
          beq_iff_eq] at hy
        intro hcon
        rcases hcon with hcon | ⟨hce, hcon⟩
        · omega
        · split at hcon <;> rename_i hsp
          · omega
          · omega

theorem selectBestGo_find (xs : Str) (xw : Nat) (hx : xs ≠ []) :
    ∀ l : List (Str × Nat), (∀ y ∈ l, y = (xs, xw) ∨ beats (xs, xw) y = true) →
      (xs, xw) ∈ l →
      ∀ (best : Option Str) (bestScore : ℤ),
        ((best = none ∧ bestScore = -1)
          ∨ (∃ b, best = some b
              ∧ (bestScore < (xw : ℤ)
                  ∨ (bestScore = (xw : ℤ) ∧ (xs.length : ℤ) < (b.length : ℤ))))) →
        selectBestGo l best bestScore = some xs := by
  intro l
  induction l with
  | nil => intro _ hmem _ _ _; exact absurd hmem (List.not_mem_nil _)
  | cons y rest ih =>
    intro hall hmem best bestScore hinv
    obtain ⟨k, v⟩ := y
    have hlen0 : xs.length ≠ 0 := fun h0 => hx (List.length_eq_zero.mp h0)
    have hrest : ∀ y ∈ rest, y = (xs, xw) ∨ beats (xs, xw) y = true :=
      fun y hm => hall y (List.mem_cons_of_mem _ hm)
    rcases hall (k, v) (List.mem_cons_self _ _) with hy | hy
    · -- the head is the dominant entry itself
      injection hy with h1 h2
      rw [h1, h2]
      simp only [selectBestGo]
      rw [if_pos ?hcp]
      · exact selectBestGo_keep xs xw hx rest hrest
      case hcp =>
        simp only [Bool.or_eq_true, decide_eq_true_eq, Bool.and_eq_true, beq_iff_eq]
        rcases hinv with ⟨hb, hs⟩ | ⟨b, hb, hs⟩
        · subst hb
          subst hs
          left
          omega
        · subst hb
          rcases hs with hs | ⟨hs1, hs2⟩
          · exact Or.inl hs
          · refine Or.inr ⟨hs1, ?_⟩
            simp only [blOf]
            have hb0 : (b.length == 0) = false := by
              rw [Bool.eq_false_iff]
              intro hbeq
              have := eq_of_beq hbeq
              omega
            rw [hb0, if_neg Bool.false_ne_true]
            exact hs2
    · -- the head is a beaten entry; the dominant entry is further on
      have hne : (xs, xw) ≠ (k, v) := by
        intro he
        rw [← he] at hy
        rw [beats_irrefl] at hy
        exact Bool.noConfusion hy
      have hmem2 : (xs, xw) ∈ rest := by
        rcases List.mem_cons.mp hmem with he | hm
        · exact absurd he hne
        · exact hm
      simp only [beats, Bool.or_eq_true, Bool.and_eq_true, decide_eq_true_eq,
        beq_iff_eq] at hy
      simp only [selectBestGo]
      split
      · exact ih hrest hmem2 (some k) (v : ℤ) (Or.inr ⟨k, rfl, by omega⟩)
      · rcases hinv with ⟨hb, hs⟩ | ⟨b, hb, hs⟩
        · rename_i hcf
          exfalso
          subst hb
          subst hs
          simp only [Bool.or_eq_true, decide_eq_true_eq, Bool.and_eq_true,
            beq_iff_eq] at hcf
          exact hcf (Or.inl (by omega))
        · exact ih hrest hmem2 best bestScore (Or.inr ⟨b, hb, hs⟩)

theorem selectBest_unique (xs : Str) (xw : Nat) (hx : xs ≠ [])
    (l : List (Str × Nat)) (hmem : (xs, xw) ∈ l)
    (hdom : ∀ y ∈ l, y = (xs, xw) ∨ beats (xs, xw) y = true) :
    selectBest l = some xs := by
  unfold selectBest
  rw [selectBestGo_find xs xw hx l hdom hmem none (-1) (Or.inl ⟨rfl, rfl⟩)]
  have ht : jsTruthyStr (some xs) = true := by
    cases hc : xs with
    | nil => exact absurd hc hx
    | cons a t => simp [jsTruthyStr]
  rw [orJS_pos ht]

/-- Claim C4, counterexample.  Two distinct tokens with equal cumulative
weight and equal length: tallying the same multiset of votes in the two
orders elects two different winners, so the announced tie-break (shortest
normalized token) does not make the vote order-independent. -/
theorem claim4_counterexample :
    [("AB 1234".toList, 1), ("CD 5678".toList, 1)].Perm
        [("CD 5678".toList, 1), ("AB 1234".toList, 1)]
      ∧ selectBest (tallyVotes [("AB 1234".toList, 1), ("CD 5678".toList, 1)])
          = some "AB 1234".toList
      ∧ selectBest (tallyVotes [("CD 5678".toList, 1), ("AB 1234".toList, 1)])
          = some "CD 5678".toList :=
  ⟨List.Perm.swap ("CD 5678".toList, 1) ("AB 1234".toList, 1) [],
   by decide, by decide⟩

/-- Claim C4 (amended): the vote is deterministic only up to full ties.
Whenever one tallied entry `x` strictly dominates every other tally entry
(more cumulative weight, or equal weight and strictly shorter token — the
code's announced order), the winner is `x`'s token for every tallying order
of the same multiset of vote events; when two entries tie on both weight and
length, the first-tallied one wins and the result depends on the order (see
the counterexample). -/
theorem claim4_voting_determinism (v1 v2 : List (Str × Nat)) (hp : v1.Perm v2)
    (xs : Str) (xw : Nat) (hne : xs ≠ []) (hx : (xs, xw) ∈ tallyVotes v1)
    (hdom : ∀ y ∈ tallyVotes v1, y = (xs, xw) ∨ beats (xs, xw) y = true) :
    selectBest (tallyVotes v1) = some xs ∧ selectBest (tallyVotes v2) = some xs := by
  have hx2 : (xs, xw) ∈ tallyVotes v2 := (tally_mem_perm hp (xs, xw)).mp hx
  have hdom2 : ∀ y ∈ tallyVotes v2, y = (xs, xw) ∨ beats (xs, xw) y = true :=
    fun y hy => hdom y ((tally_mem_perm hp y).mpr hy)
  exact ⟨selectBest_unique xs xw hne _ hx hdom,
    selectBest_unique xs xw hne _ hx2 hdom2⟩

/-- Claim C4, witness: a dominant token (weight 2 beats weight 1) wins under
both tallying orders of the same two vote events. -/
theorem claim4_witness :
    selectBest (tallyVotes [("AB 1234".toList, 2), ("CDE 99999".toList, 1)])
        = some "AB 1234".toList
      ∧ selectBest (tallyVotes [("CDE 99999".toList, 1), ("AB 1234".toList, 2)])
          = some "AB 1234".toList :=
  claim4_voting_determinism
    [("AB 1234".toList, 2), ("CDE 99999".toList, 1)]
    [("CDE 99999".toList, 1), ("AB 1234".toList, 2)]
    (List.Perm.swap ("CDE 99999".toList, 1) ("AB 1234".toList, 2) [])
    "AB 1234".toList 2 (by decide) (by decide) (by decide)

/-! ## C10 : date idempotence -/

theorem toIsoDate_canonical :
    ∀ y : Str, isCanonicalDate y = true → toIsoDate (some y) = some y := by
  intro y h
  rcases y with _ | ⟨y1, y⟩
  · rw [show isCanonicalDate [] = false from rfl] at h; exact Bool.noConfusion h
  rcases y with _ | ⟨y2, y⟩
  · rw [show isCanonicalDate [y1] = false from rfl] at h; exact Bool.noConfusion h
  rcases y with _ | ⟨y3, y⟩
  · rw [show isCanonicalDate [y1, y2] = false from rfl] at h; exact Bool.noConfusion h
  rcases y with _ | ⟨y4, y⟩
  · rw [show isCanonicalDate [y1, y2, y3] = false from rfl] at h; exact Bool.noConfusion h
  rcases y with _ | ⟨s1, y⟩
  · rw [show isCanonicalDate [y1, y2, y3, y4] = false from rfl] at h; exact Bool.noConfusion h
  rcases y with _ | ⟨m1, y⟩
  · rw [show isCanonicalDate [y1, y2, y3, y4, s1] = false from rfl] at h
    exact Bool.noConfusion h
  rcases y with _ | ⟨m2, y⟩
  · rw [show isCanonicalDate [y1, y2, y3, y4, s1, m1] = false from rfl] at h
    exact Bool.noConfusion h
  rcases y with _ | ⟨s2, y⟩
  · rw [show isCanonicalDate [y1, y2, y3, y4, s1, m1, m2] = false from rfl] at h
    exact Bool.noConfusion h
  rcases y with _ | ⟨d1, y⟩
  · rw [show isCanonicalDate [y1, y2, y3, y4, s1, m1, m2, s2] = false from rfl] at h
    exact Bool.noConfusion h
  rcases y with _ | ⟨d2, y⟩
  · rw [show isCanonicalDate [y1, y2, y3, y4, s1, m1, m2, s2, d1] = false from rfl] at h
    exact Bool.noConfusion h
  rcases y with _ | ⟨z, y⟩
  · simp only [isCanonicalDate, Bool.and_eq_true, beq_iff_eq, and_assoc] at h
    obtain ⟨h1, h2, h3, h4, hs1, h5, h6, hs2, h7, h8⟩ := h
    subst hs1
    subst hs2
    have hsp1 : isSpaceJS y1 = false := digit_not_space h1
    have hsp2 : isSpaceJS d2 = false := digit_not_space h8
    have htrim :
        trimJS [y1, y2, y3, y4, '-', m1, m2, '-', d1, d2]
          = [y1, y2, y3, y4, '-', m1, m2, '-', d1, d2] := by
      simp [trimJS, List.dropWhile_cons, hsp1, hsp2]
    have hbj : (jsToLower y1 == 'j') = false := lower_beq_false h1 (by decide)
    have hbf : (jsToLower y1 == 'f') = false := lower_beq_false h1 (by decide)
    have hbm : (jsToLower y1 == 'm') = false := lower_beq_false h1 (by decide)
    have hba : (jsToLower y1 == 'a') = false := lower_beq_false h1 (by decide)
    have hbs : (jsToLower y1 == 's') = false := lower_beq_false h1 (by decide)
    have hbo : (jsToLower y1 == 'o') = false := lower_beq_false h1 (by decide)
    have hbn : (jsToLower y1 == 'n') = false := lower_beq_false h1 (by decide)
    have hbd : (jsToLower y1 == 'd') = false := lower_beq_false h1 (by decide)
    have hm3 : month3At [y1, y2, y3, y4, '-', m1, m2, '-', d1, d2] = none := by
      simp [month3At, hbj, hbf, hbm, hba, hbs, hbo, hbn, hbd]
    have hb1 : isoBranchMonthYear [y1, y2, y3, y4, '-', m1, m2, '-', d1, d2] = none := by
      simp [isoBranchMonthYear, hm3]
    have hb2 :
        isoBranchYmd [y1, y2, y3, y4, '-', m1, m2, '-', d1, d2]
          = some [y1, y2, y3, y4, '-', m1, m2, '-', d1, d2] := by
      simp [isoBranchYmd, List.takeWhile_cons, List.dropWhile_cons, h1, h2, h3, h4, h5, h6,
            h7, h8, show isDigitChar '-' = false from by decide,
            show isSlashSep '-' = true from by decide, padStart2]
    simp [toIsoDate, htrim, hb1, hb2]
  · rw [show isCanonicalDate (y1 :: y2 :: y3 :: y4 :: s1 :: m1 :: m2 :: s2 :: d1 :: d2 :: z :: y)
          = false from rfl] at h
    exact Bool.noConfusion h

/-- Claim C10: the date normalizer is idempotent on canonical and
canonicalizing inputs — `toIsoDate` returns an already-canonical
`YYYY-MM-DD` string unchanged, and whenever `toIsoDate` produces a canonical
string, applying it twice equals applying it once. -/
theorem claim10_date_idempotence :
    (∀ y : Str, isCanonicalDate y = true → toIsoDate (some y) = some y)
      ∧ (∀ x y : Str, toIsoDate (some x) = some y → isCanonicalDate y = true →
          toIsoDate (toIsoDate (some x)) = toIsoDate (some x)) := by
  constructor
  · exact toIsoDate_canonical
  · intro x y h1 h2
    rw [h1]
    exact toIsoDate_canonical y h2

/-- Claim C10, witness at concrete dates: `"2024-10-01"` is canonical and
fixed; `"2024-5-1"` normalizes to `"2024-05-01"` and normalizing twice agrees
with normalizing once. -/
theorem claim10_witness :
    isCanonicalDate "2024-10-01".toList = true
      ∧ toIsoDate (some "2024-10-01".toList) = some "2024-10-01".toList
      ∧ toIsoDate (toIsoDate (some "2024-5-1".toList)) = toIsoDate (some "2024-5-1".toList) :=
  ⟨by decide, claim10_date_idempotence.1 ("2024-10-01".toList) (by decide),
   claim10_date_idempotence.2 ("2024-5-1".toList) ("2024-05-01".toList) (by decide) (by decide)⟩

/-! ## C3 : batch normalizer idempotence -/

theorem upper_toNat {c : Char} (h : isUpperAZ c = true) :
    65 ≤ c.toNat ∧ c.toNat ≤ 90 := by
  simpa [isUpperAZ] using h

theorem isSpaceJS_false_ge {c : Char} (h : 33 ≤ c.toNat) : isSpaceJS c = false := by
  have h1 : (c == ' ') = false := char_beq_false (by rw [show Char.toNat ' ' = 32 from rfl]; omega)
  have h2 : (c == '\t') = false := char_beq_false (by rw [show Char.toNat '\t' = 9 from rfl]; omega)
  have h3 : (c == '\n') = false := char_beq_false (by rw [show Char.toNat '\n' = 10 from rfl]; omega)
  have h4 : (c == '\r') = false :=
    char_beq_false (by rw [show Char.toNat '\r' = 13 from rfl]; omega)
  have h5 : (c.toNat == 11) = false := by
    rw [Bool.eq_false_iff]; intro hx; have := eq_of_beq hx; omega
  have h6 : (c.toNat == 12) = false := by
    rw [Bool.eq_false_iff]; intro hx; have := eq_of_beq hx; omega
  simp [isSpaceJS, h1, h2, h3, h4, h5, h6]

theorem lower_false_of_upper {c : Char} (h : isUpperAZ c = true) : isLowerAZ c = false := by
  rw [Bool.eq_false_iff]
  intro hl
  have h1 := upper_toNat h
  simp [isLowerAZ] at hl
  omega

theorem lower_false_of_digit {c : Char} (h : isDigitChar c = true) : isLowerAZ c = false := by
  rw [Bool.eq_false_iff]
  intro hl
  have h1 := digit_toNat h
  simp [isLowerAZ] at hl
  omega

theorem jsToUpper_id {c : Char} (h : isLowerAZ c = false) : jsToUpper c = c := by
  simp [jsToUpper, h]

theorem all_imp {α : Type} (p q : α → Bool) (l : List α) (h : l.all p = true)
    (himp : ∀ c, p c = true → q c = true) : l.all q = true := by
  rw [List.all_eq_true] at h ⊢
  exact fun x hx => himp x (h x hx)

theorem map_id_of_mem {α : Type} (f : α → α) (l : List α) (h : ∀ c ∈ l, f c = c) :
    l.map f = l := by
  induction l with
  | nil => rfl
  | cons c t ih =>
    rw [List.map_cons, h c (List.mem_cons_self _ _),
      ih (fun c hc => h c (List.mem_cons_of_mem _ hc))]

theorem stripNonBatchGo_id (l : Str) (h : l.all isBatchKeep = true) :
    stripNonBatchGo false l = l := by
  induction l with
  | nil => rfl
  | cons c t ih =>
    rw [List.all_cons, Bool.and_eq_true] at h
    simp only [stripNonBatchGo, h.1, if_true]
    rw [ih h.2]

theorem collapseWsGo_nospace (l : Str) (h : l.all (fun c => !isSpaceJS c) = true) :
    ∀ b : Bool, collapseWsGo b l = l := by
  induction l with
  | nil => intro b; rfl
  | cons c t ih =>
    intro b
    rw [List.all_cons, Bool.and_eq_true] at h
    have hc : isSpaceJS c = false := by
      have := h.1
      cases hs : isSpaceJS c
      · rfl
      · rw [hs] at this; exact absurd this (by simp)
    simp only [collapseWsGo, hc, Bool.false_eq_true, if_false]
    rw [ih h.2 false]

theorem collapseWsGo_canon (D : Str) (hD : D.all (fun c => !isSpaceJS c) = true) :
    ∀ L : Str, L.all (fun c => !isSpaceJS c) = true →
      collapseWsGo false (L ++ ' ' :: D) = L ++ ' ' :: D := by
  intro L
  induction L with
  | nil =>
    intro _
    simp only [List.nil_append, collapseWsGo, show isSpaceJS ' ' = true from rfl, if_true,
      Bool.false_eq_true, if_false]
    rw [collapseWsGo_nospace D hD true]
  | cons c L' ih =>
    intro hL
    rw [List.all_cons, Bool.and_eq_true] at hL
    have hc : isSpaceJS c = false := by
      have := hL.1
      cases hs : isSpaceJS c
      · rfl
      · rw [hs] at this; exact absurd this (by simp)
    simp only [List.cons_append, collapseWsGo, hc, Bool.false_eq_true, if_false,
      List.append_eq]
    rw [ih hL.2]

theorem collapseWs2Go_nospace (l : Str) (h : l.all (fun c => !isSpaceJS c) = true) :
    ∀ b : Bool, collapseWs2Go b l = l := by
  induction l with
  | nil => intro b; rfl
  | cons c t ih =>
    intro b
    rw [List.all_cons, Bool.and_eq_true] at h
    have hc : isSpaceJS c = false := by
      have := h.1
      cases hs : isSpaceJS c
      · rfl
      · rw [hs] at this; exact absurd this (by simp)
    simp only [collapseWs2Go, hc, Bool.false_eq_true, if_false]
    rw [ih h.2 false]

theorem collapseWs2Go_canon (D : Str) (hD : D.all (fun c => !isSpaceJS c) = true) :
    ∀ L : Str, L.all (fun c => !isSpaceJS c) = true →
      collapseWs2Go false (L ++ ' ' :: D) = L ++ ' ' :: D := by
  intro L
  induction L with
  | nil =>
    intro _
    cases hDe : D with
    | nil =>
      simp only [List.nil_append, collapseWs2Go]
      rfl
    | cons dd D'' =>
      have hdd : isSpaceJS dd = false := by
        rw [hDe, List.all_cons, Bool.and_eq_true] at hD
        have := hD.1
        cases hs : isSpaceJS dd
        · rfl
        · rw [hs] at this; exact absurd this (by simp)
      have hD'' : D''.all (fun c => !isSpaceJS c) = true := by
        rw [hDe, List.all_cons, Bool.and_eq_true] at hD
        exact hD.2
      simp only [List.nil_append, collapseWs2Go, show isSpaceJS ' ' = true from rfl, if_true,
        Bool.false_eq_true, if_false, hdd]
      rw [collapseWs2Go_nospace D'' hD'' false]
  | cons c L' ih =>
    intro hL
    rw [List.all_cons, Bool.and_eq_true] at hL
    have hc : isSpaceJS c = false := by
      have := hL.1
      cases hs : isSpaceJS c
      · rfl
      · rw [hs] at this; exact absurd this (by simp)
    simp only [List.cons_append, collapseWs2Go, hc, Bool.false_eq_true, if_false,
      List.append_eq]
    rw [ih hL.2]

theorem trimJS_canon (L D : Str) (hLne : L ≠ []) (hDne : D ≠ [])
    (hL : L.all (fun c => !isSpaceJS c) = true)
    (hD : D.all (fun c => !isSpaceJS c) = true) :
    trimJS (L ++ ' ' :: D) = L ++ ' ' :: D := by
  obtain ⟨c, L', hLeq⟩ : ∃ c L', L = c :: L' := by
    cases L with
    | nil => exact absurd rfl hLne
    | cons c L' => exact ⟨c, L', rfl⟩
  obtain ⟨dd, D', hDr⟩ : ∃ dd D', D.reverse = dd :: D' := by
    cases hr : D.reverse with
    | nil => exact absurd (List.reverse_eq_nil_iff.mp hr) hDne
    | cons dd D' => exact ⟨dd, D', rfl⟩
  have hc : isSpaceJS c = false := by
    rw [hLeq, List.all_cons, Bool.and_eq_true] at hL
    have := hL.1
    cases hs : isSpaceJS c
    · rfl
    · rw [hs] at this; exact absurd this (by simp)
  have hdd : isSpaceJS dd = false := by
    have hmem : dd ∈ D := List.mem_reverse.mp (hDr ▸ List.mem_cons_self dd D')
    have := List.all_eq_true.mp hD dd hmem
    cases hs : isSpaceJS dd
    · rfl
    · rw [hs] at this; exact absurd this (by simp)
  have step1 : (L ++ ' ' :: D).dropWhile isSpaceJS = L ++ ' ' :: D := by
    rw [hLeq, List.cons_append, List.dropWhile_cons, if_neg (by simp [hc])]
  have hrev : (L ++ ' ' :: D).reverse = dd :: (D' ++ ' ' :: L.reverse) := by
    rw [List.reverse_append, List.reverse_cons, hDr]
    simp
  have step2 : (L ++ ' ' :: D).reverse.dropWhile isSpaceJS = (L ++ ' ' :: D).reverse := by
    rw [hrev, List.dropWhile_cons, if_neg (by simp [hdd])]
  unfold trimJS
  rw [step1, step2, List.reverse_reverse]

theorem repairPass_digits (d rc : Char) :
    ∀ (D : Str) (p2 p1 : Option Char), D.all isDigitChar = true →
      (match p1 with | some c => isUpperAZ c = false | none => True) →
      repairPass d rc p2 p1 D = D := by
  intro D
  induction D with
  | nil => intro p2 p1 _ _; rfl
  | cons c D' ih =>
    intro p2 p1 hD hp1
    rw [List.all_cons, Bool.and_eq_true] at hD
    cases p1 with
    | none =>
      simp only [repairPass, Bool.and_false, Bool.false_and, Bool.false_eq_true, if_false]
      rw [ih none (some c) hD.2 (isUpperAZ_digit hD.1)]
    | some p =>
      simp only at hp1
      simp only [repairPass, hp1, Bool.and_false, Bool.false_and, Bool.false_eq_true,
        if_false]
      rw [ih (some p) (some c) hD.2 (isUpperAZ_digit hD.1)]

theorem repairPass_canon (d rc : Char) (hd : isDigitChar d = true) (D : Str)
    (hD : D.all isDigitChar = true) :
    ∀ (L : Str) (p2 p1 : Option Char), L.all isUpperAZ = true →
      repairPass d rc p2 p1 (L ++ ' ' :: D) = L ++ ' ' :: D := by
  have hdn := digit_toNat hd
  intro L
  induction L with
  | nil =>
    intro p2 p1 _
    have hsd : (' ' == d) = false :=
      char_beq_false (by rw [show Char.toNat ' ' = 32 from rfl]; omega)
    simp only [List.nil_append, repairPass, hsd, Bool.false_and, Bool.false_eq_true,
      if_false]
    rw [repairPass_digits d rc D p1 (some ' ') hD (by simp only; decide)]
  | cons c L' ih =>
    intro p2 p1 hL
    rw [List.all_cons, Bool.and_eq_true] at hL
    have hcd : (c == d) = false := by
      have := upper_toNat hL.1
      exact char_beq_false (by omega)
    simp only [List.cons_append, repairPass, hcd, Bool.false_and, Bool.false_eq_true,
      if_false, List.append_eq]
    rw [ih p1 (some c) hL.2]

theorem confusionRepairs_canon (L D : Str) (hL : L.all isUpperAZ = true)
    (hD : D.all isDigitChar = true) :
    confusionRepairs (L ++ ' ' :: D) = L ++ ' ' :: D := by
  unfold confusionRepairs
  rw [repairPass_canon '0' 'O' (by decide) D hD L none none hL,
    repairPass_canon '1' 'I' (by decide) D hD L none none hL,
    repairPass_canon '5' 'S' (by decide) D hD L none none hL]

theorem shapeTryAt_canon (L D : Str)
    (hL : L.all isUpperAZ = true) (h2 : 2 ≤ L.length) (h5 : L.length ≤ 5)
    (hD : D.all isDigitChar = true) (h4 : 4 ≤ D.length) (h6 : D.length ≤ 6) :
    shapeTryAt (L ++ ' ' :: D) = some ⟨L, D⟩ := by
  obtain ⟨dd, D', hDeq⟩ : ∃ dd D', D = dd :: D' := by
    cases D with
    | nil => simp at h4
    | cons dd D' => exact ⟨dd, D', rfl⟩
  have hdd : isDigitChar dd = true := by
    rw [hDeq, List.all_cons, Bool.and_eq_true] at hD
    exact hD.1
  have hddns : isSpaceJS dd = false :=
    isSpaceJS_false_ge (by have := digit_toNat hdd; omega)
  have hsp : (' ' :: D).dropWhile isSpaceJS = D := by
    rw [List.dropWhile_cons, if_pos (by decide)]
    rw [hDeq, List.dropWhile_cons, if_neg (by simp [hddns])]
  have hmid : shapeMid D = D := by
    have hb : (D.head? == some '-') = false := by
      rw [hDeq, List.head?_cons]
      apply beq_eq_false_iff_ne.mpr
      intro he
      have h1 := Option.some.inj he
      have := digit_toNat hdd
      rw [h1, show Char.toNat '-' = 45 from rfl] at this
      omega
    unfold shapeMid
    rw [if_neg (by rw [hb]; exact Bool.false_ne_true)]
  have htw : (L ++ ' ' :: D).takeWhile isUpperAZ = L :=
    takeWhile_append_stop _ _ _ _ hL (by decide)
  have hdw : (L ++ ' ' :: D).dropWhile isUpperAZ = ' ' :: D :=
    dropWhile_append_stop _ _ _ _ hL (by decide)
  have htd : D.takeWhile isDigitChar = D := takeWhile_of_all _ _ hD
  have hdd2 : D.dropWhile isDigitChar = [] := dropWhile_of_all _ _ hD
  simp only [shapeTryAt, htw, hdw, hsp, hmid, htd, hdd2]
  simp [h2, h5, h4, h6, isWordOpt]

theorem shapeSearch_canon (L D : Str)
    (hL : L.all isUpperAZ = true) (h2 : 2 ≤ L.length) (h5 : L.length ≤ 5)
    (hD : D.all isDigitChar = true) (h4 : 4 ≤ D.length) (h6 : D.length ≤ 6) :
    shapeSearch none (L ++ ' ' :: D) = some ⟨L, D⟩ := by
  obtain ⟨c, L', hLeq⟩ : ∃ c L', L = c :: L' := by
    cases L with
    | nil => simp at h2
    | cons c L' => exact ⟨c, L', rfl⟩
  have hc : isUpperAZ c = true := by
    rw [hLeq, List.all_cons, Bool.and_eq_true] at hL
    exact hL.1
  have hTry := shapeTryAt_canon L D hL h2 h5 hD h4 h6
  rw [hLeq] at hTry ⊢
  rw [List.cons_append] at hTry ⊢
  unfold shapeSearch
  rw [if_pos (by simp [isWordOpt, hc])]
  rw [hTry]

/-- Claim C3, counterexample.  `normalizeBatchToken` is not idempotent: on
`"BLSL1234"` the first pass produces `"BLSL 1234"` (the ligature fix cannot
fire because its lookahead needs `SL` followed by a boundary), and a second
pass then deletes the stray `L`, giving `"BSL 1234"` — the result of the
first pass is not a fixed point. -/
theorem claim3_counterexample :
    normalizeBatchToken (some "BLSL1234".toList) = some "BLSL 1234".toList
      ∧ normalizeBatchToken (some "BLSL 1234".toList) = some "BSL 1234".toList
      ∧ normalizeBatchToken (normalizeBatchToken (some "BLSL1234".toList))
          ≠ normalizeBatchToken (some "BLSL1234".toList) := by
  refine ⟨by decide, by decide, by decide⟩

/-- Claim C3 (amended): `normalizeBatchToken` is idempotent exactly on the
outputs the `BL`-ligature fix leaves alone: whenever a first pass returns
`r` and the ligature fix does not rewrite `r` (`blFix r = r`), a second pass
returns `r` unchanged.  Without that proviso idempotence fails (see the
counterexample): the ligature fix is the only stage that can rewrite a
canonical `letters ++ ' ' ++ digits` output. -/
theorem claim3_idempotent_amended (x r : Str)
    (h : normalizeBatchToken (some x) = some r) (hfix : blFix r = r) :
    normalizeBatchToken (some r) = some r := by
  obtain ⟨L, D, hr, hL, h2, h5, hD, h4, h6⟩ := normalizeBatchToken_canon h
  subst hr
  have hLne : L ≠ [] := by
    intro h0
    rw [h0] at h2
    simp at h2
  have hDne : D ≠ [] := by
    intro h0
    rw [h0] at h4
    simp at h4
  have hLns : L.all (fun c => !isSpaceJS c) = true :=
    all_imp _ _ _ hL (fun c hc => by
      rw [isSpaceJS_false_ge (by have := upper_toNat hc; omega)]
      rfl)
  have hDns : D.all (fun c => !isSpaceJS c) = true :=
    all_imp _ _ _ hD (fun c hc => by
      rw [isSpaceJS_false_ge (by have := digit_toNat hc; omega)]
      rfl)
  have hup : upperStr (L ++ ' ' :: D) = L ++ ' ' :: D := by
    apply map_id_of_mem
    intro c hc
    rcases List.mem_append.mp hc with hc | hc
    · exact jsToUpper_id (lower_false_of_upper (List.all_eq_true.mp hL c hc))
    · rcases List.mem_cons.mp hc with rfl | hc
      · rfl
      · exact jsToUpper_id (lower_false_of_digit (List.all_eq_true.mp hD c hc))
  have hkeep : (L ++ ' ' :: D).all isBatchKeep = true := by
    have hLk : L.all isBatchKeep = true :=
      all_imp _ _ _ hL (fun c hc => by simp [isBatchKeep, hc])
    have hDk : D.all isBatchKeep = true :=
      all_imp _ _ _ hD (fun c hc => by simp [isBatchKeep, hc])
    rw [List.all_append, List.all_cons, hLk, hDk]
    rfl
  have hstrip : stripNonBatch (L ++ ' ' :: D) = L ++ ' ' :: D :=
    stripNonBatchGo_id _ hkeep
  have hcw : collapseWs (L ++ ' ' :: D) = L ++ ' ' :: D :=
    collapseWsGo_canon D hDns L hLns
  have htrim : trimJS (L ++ ' ' :: D) = L ++ ' ' :: D :=
    trimJS_canon L D hLne hDne hLns hDns
  have hconf : confusionRepairs (L ++ ' ' :: D) = L ++ ' ' :: D :=
    confusionRepairs_canon L D hL hD
  have hcw2 : collapseWs2 (L ++ ' ' :: D) = L ++ ' ' :: D :=
    collapseWs2Go_canon D hDns L hLns
  have hshape : shapeSearch none (L ++ ' ' :: D) = some ⟨L, D⟩ :=
    shapeSearch_canon L D hL h2 h5 hD h4 h6
  have hne2 : (L ++ ' ' :: D).isEmpty = false := by
    cases L with
    | nil => exact absurd rfl hLne
    | cons c L' => rfl
  simp only [normalizeBatchToken, hne2, Bool.false_eq_true, if_false]
  rw [hup, hstrip, hcw, htrim, hconf, hfix, hcw2, hshape]

/-- Claim C3, witness: `"AB 1234"` is a first-pass output that the ligature
fix leaves alone, and a second pass leaves it unchanged. -/
theorem claim3_witness :
    normalizeBatchToken (some "AB 1234".toList) = some "AB 1234".toList :=
  claim3_idempotent_amended "AB 1234".toList "AB 1234".toList (by decide) (by decide)


end MyPharma
